import Mathlib

/-!
# Verification of the gopher-mcp core against its specification

A shallow embedding of the URL codec, menu parser, MIME guesser, cache-expiry
check and fetch façade of the `gopher_mcp` Python package, together with
theorems settling the frozen claims about them.

Python strings are modelled as `List Char` (a Python `str` is a sequence of
Unicode code points).  Fallible Python code (functions documented to raise
`ValueError`, and pydantic validators) is modelled with `Option`: `none`
models an exception escaping the function.

The model of `urllib.parse.urlparse` below follows CPython 3.11.6 for the
fragment exercised by `parse_gopher_url` (scheme `gopher`, which is not in
`uses_params`, so no `;params` splitting occurs).  Bracketed (IPv6 /
IPvFuture) authorities are modelled in full, including `urlsplit`'s
`_check_bracketed_host` and the `ipaddress` textual parsers it calls;
`str.isdigit` and the `int` conversion are modelled with the complete
Unicode 14.0 decimal / digit tables of CPython 3.11.6's `unicodedata`.
Documented deviations, none of which are exercised by the claims:
* `_checknetloc`'s NFKC-normalisation check is not modelled: it only
  rejects, and only netlocs containing non-ASCII characters whose NFKC
  normalisation introduces one of `/?#@:`, so the model accepts a
  superset of the program's URLs (every concrete URL evaluated here is
  ASCII);
* `str.lower` is modelled on ASCII code points only;
* `urllib.parse.unquote` is modelled byte-for-byte for escapes below 0x80
  (CPython additionally UTF-8-decodes runs of higher escaped bytes).
-/

namespace GopherMcp

/-! ## Python string primitives -/

/-- The characters CPython's `urlsplit` removes from a URL before parsing
(`_UNSAFE_URL_BYTES_TO_REMOVE = ["\t", "\r", "\n"]`). -/
def isUnsafeUrlChar (c : Char) : Bool :=
  c == '\t' || c == '\r' || c == '\n'

/-- `urlsplit`'s removal of ASCII tab, CR and LF from the URL. -/
def stripUnsafe (s : List Char) : List Char :=
  s.filter (fun c => !isUnsafeUrlChar c)

/-- Split at the first occurrence of a character: the part before it, and
(if the character occurs) the part after it.  Models Python's
`str.partition` / `str.split(sep, 1)` for a one-character separator. -/
def splitFirst (sep : Char) (s : List Char) : List Char × Option (List Char) :=
  (s.takeWhile (fun c => c != sep),
   match s.dropWhile (fun c => c != sep) with
   | [] => none
   | _ :: r => some r)

/-- The part of `s` after the last occurrence of `sep` (all of `s` when
`sep` does not occur).  Models the third component of `str.rpartition`. -/
def afterLast (sep : Char) (s : List Char) : List Char :=
  (s.reverse.takeWhile (fun c => c != sep)).reverse

/-- Python `str.split(sep)` for a one-character separator: non-collapsing
split, `[] ↦ [[]]`. -/
def pySplit (sep : Char) : List Char → List (List Char)
  | [] => [[]]
  | c :: rest =>
    if c = sep then [] :: pySplit sep rest
    else
      match pySplit sep rest with
      | [] => [[c]]
      | p :: ps => (c :: p) :: ps

/-- First occurrence of a (non-empty) literal substring `sep` in `s`:
`some (pre, post)` with `s = pre ++ sep ++ post` and the occurrence minimal,
`none` when `sep` does not occur.  Models Python's `sep in s` test together
with `s.split(sep, 1)`. -/
def findSub (sep : List Char) : List Char → Option (List Char × List Char)
  | [] => if sep.isEmpty then some ([], []) else none
  | c :: rest =>
    if sep.isPrefixOf (c :: rest) then some ([], (c :: rest).drop sep.length)
    else
      match findSub sep rest with
      | some (a, b) => some (c :: a, b)
      | none => none

/-- Python `str.rstrip("\r\n")`: drop trailing CR/LF characters. -/
def rstripCRLF (s : List Char) : List Char :=
  (s.reverse.dropWhile (fun c => c == '\r' || c == '\n')).reverse

/-- ASCII lower-casing of one character (CPython's `str.lower` restricted
to ASCII, which is all the claims exercise). -/
def asciiLower (c : Char) : Char :=
  if 65 ≤ c.toNat ∧ c.toNat ≤ 90 then Char.ofNat (c.toNat + 32) else c

/-- The Unicode 14.0 code-point ranges of characters with
`Numeric_Type=Decimal` — the characters `int` converts — generated from
CPython 3.11.6's `unicodedata`.  Within each range `(lo, hi)` the decimal
value of `c` is `c.toNat - lo`. -/
def decimalRanges : List (Nat × Nat) :=
  [(48, 57), (1632, 1641), (1776, 1785), (1984, 1993), (2406, 2415),
   (2534, 2543), (2662, 2671), (2790, 2799), (2918, 2927), (3046, 3055),
   (3174, 3183), (3302, 3311), (3430, 3439), (3558, 3567), (3664, 3673),
   (3792, 3801), (3872, 3881), (4160, 4169), (4240, 4249), (6112, 6121),
   (6160, 6169), (6470, 6479), (6608, 6617), (6784, 6793), (6800, 6809),
   (6992, 7001), (7088, 7097), (7232, 7241), (7248, 7257), (42528, 42537),
   (43216, 43225), (43264, 43273), (43472, 43481), (43504, 43513),
   (43600, 43609), (44016, 44025), (65296, 65305), (66720, 66729),
   (68912, 68921), (69734, 69743), (69872, 69881), (69942, 69951),
   (70096, 70105), (70384, 70393), (70736, 70745), (70864, 70873),
   (71248, 71257), (71360, 71369), (71472, 71481), (71904, 71913),
   (72016, 72025), (72784, 72793), (73040, 73049), (73120, 73129),
   (92768, 92777), (92864, 92873), (93008, 93017), (120782, 120791),
   (120792, 120801), (120802, 120811), (120812, 120821), (120822, 120831),
   (123200, 123209), (123632, 123641), (125264, 125273), (130032, 130041)]

/-- The Unicode 14.0 code-point ranges of characters with
`Numeric_Type=Digit` — `str.isdigit` accepts them but `int` raises on
them (`'²'` is U+00B2 = 178) — generated from CPython 3.11.6's
`unicodedata`. -/
def digitOnlyRanges : List (Nat × Nat) :=
  [(178, 179), (185, 185), (4969, 4977), (6618, 6618), (8304, 8304),
   (8308, 8313), (8320, 8329), (9312, 9320), (9332, 9340), (9352, 9360),
   (9450, 9450), (9461, 9469), (9471, 9471), (10102, 10110),
   (10112, 10120), (10122, 10130), (68160, 68163), (69216, 69224),
   (69714, 69722), (127232, 127242)]

/-- The decimal value of a character (`unicodedata.decimal`, what `int`
uses per character), `none` when the character carries none. -/
def decimalDigitVal (c : Char) : Option Nat :=
  match decimalRanges.find?
      (fun r => decide (r.1 ≤ c.toNat) && decide (c.toNat ≤ r.2)) with
  | some r => some (c.toNat - r.1)
  | none => none

/-- One character of Python's `str.isdigit`: `Numeric_Type` is `Decimal`
or `Digit`. -/
def pyIsdigitChar (c : Char) : Bool :=
  (decimalDigitVal c).isSome ||
  digitOnlyRanges.any (fun r => decide (r.1 ≤ c.toNat) && decide (c.toNat ≤ r.2))

/-- Python `str.isdigit`: non-empty and every character of `Numeric_Type`
`Decimal` or `Digit` (so `"٢"` and `"²"` pass while `"2a"` does not). -/
def pyIsdigit (s : List Char) : Bool :=
  !s.isEmpty && s.all pyIsdigitChar

/-- Python `str.isascii`: every code point below 128. -/
def pyIsascii (s : List Char) : Bool :=
  s.all (fun c => decide (c.toNat < 128))

/-- Worker for `pyIntOfDigits`. -/
def pyIntOfDigitsAux : List Char → Nat → Option Nat
  | [], acc => some acc
  | c :: rest, acc =>
    match decimalDigitVal c with
    | some d => pyIntOfDigitsAux rest (acc * 10 + d)
    | none => none

/-- Python `int(s)` on a string of digit-type characters (both call
sites guard the call with `str.isdigit`, which excludes signs, spaces
and underscores): the base-10 number formed by the characters' decimal
values, `none` — a raised `ValueError` — when a character such as `'²'`
has no decimal value. -/
def pyIntOfDigits (s : List Char) : Option Nat :=
  pyIntOfDigitsAux s 0

/-- Base-10 value of a string of ASCII digits (how `int(s, 10)` reads a
string of `0`-`9`; a helper for the decimal-rendering lemmas and the
IPv4 octet check). -/
def digitsVal (s : List Char) : Nat :=
  s.foldl (fun a c => a * 10 + (c.toNat - 48)) 0

/-- Worker for `natToChars`; the fuel argument only makes the recursion
structural, `fuel > n` always holds at call sites. -/
def natToCharsAux : Nat → Nat → List Char
  | 0, _ => []
  | fuel + 1, n =>
    if n < 10 then [Char.ofNat (48 + n)]
    else natToCharsAux fuel (n / 10) ++ [Char.ofNat (48 + n % 10)]

/-- Decimal rendering of a natural number (Python `str(n)` for `n ≥ 0`). -/
def natToChars (n : Nat) : List Char :=
  natToCharsAux (n + 1) n

/-- Numeric value of one hexadecimal digit, if it is one. -/
def hexVal (c : Char) : Option Nat :=
  if c.isDigit then some (c.toNat - 48)
  else if 97 ≤ c.toNat ∧ c.toNat ≤ 102 then some (c.toNat - 87)
  else if 65 ≤ c.toNat ∧ c.toNat ≤ 70 then some (c.toNat - 55)
  else none

/-- Worker for `pyUnquote`; the fuel argument only makes the recursion
structural, `fuel > s.length` always holds at call sites. -/
def pyUnquoteAux : Nat → List Char → List Char
  | 0, s => s
  | _ + 1, [] => []
  | fuel + 1, c :: rest =>
    if c = '%' then
      match rest with
      | a :: b :: rest2 =>
        match hexVal a, hexVal b with
        | some x, some y => Char.ofNat (16 * x + y) :: pyUnquoteAux fuel rest2
        | _, _ => '%' :: pyUnquoteAux fuel rest
      | _ => '%' :: pyUnquoteAux fuel rest
    else c :: pyUnquoteAux fuel rest

/-- Model of `urllib.parse.unquote`: decode `%XX` escapes; malformed
escapes pass through unchanged.  Exact for escapes below 0x80 (see the
file header for the deviation on higher bytes). -/
def pyUnquote (s : List Char) : List Char :=
  pyUnquoteAux (s.length + 1) s

/-! ## Bracketed-host validation (`urllib/parse.py`, `ipaddress.py`)

`urlsplit` validates the host of a bracketed authority with
`_check_bracketed_host`, which delegates to `ipaddress.ip_address`.  The
textual parsers below transcribe CPython 3.11.6's `ipaddress` as validity
predicates (`true` = the constructor does not raise). -/

/-- The hextet check of `IPv6Address._parse_hextet`: all characters
hexadecimal (`_HEX_DIGITS`), at most 4 of them, and non-empty (an empty
hextet makes its `int(hextet_str, 16)` raise). -/
def validHextet (s : List Char) : Bool :=
  !s.isEmpty && s.length ≤ 4 && s.all (fun c => (hexVal c).isSome)

/-- `IPv4Address._parse_octet`: non-empty, ASCII decimal digits only, at
most 3 characters, no leading zero (except `"0"` itself), value at most
255. -/
def validIPv4Octet (s : List Char) : Bool :=
  !s.isEmpty && (pyIsascii s && pyIsdigit s) && s.length ≤ 3 &&
  (s == ['0'] || s.headD '0' != '0') && decide (digitsVal s ≤ 255)

/-- `IPv4Address._ip_int_from_string`: exactly four `.`-separated
octets, each valid. -/
def validIPv4 (s : List Char) : Bool :=
  match pySplit '.' s with
  | [a, b, c, d] =>
    validIPv4Octet a && validIPv4Octet b && validIPv4Octet c && validIPv4Octet d
  | _ => false

/-- `IPv6Address._ip_int_from_string` as a validity predicate: the split
on `:` yields at least 3 parts; a last part containing `.` must be a
valid IPv4 address and stands for two hextets; at most 9 parts in all;
at most one empty part away from the endpoints (the `::` skip), with the
original's endpoint adjustments (an empty first or last part is only
permitted next to the skip) and at least one zero-part skipped; every
remaining copied part is a valid hextet. -/
def validIPv6Core (s : List Char) : Bool :=
  if s.isEmpty then false
  else
    let parts0 := pySplit ':' s
    if parts0.length < 3 then false
    else if (parts0.getLastD []).contains '.' && !validIPv4 (parts0.getLastD []) then
      false
    else
      let parts := if (parts0.getLastD []).contains '.' then
          parts0.dropLast ++ [['0'], ['0']] else parts0
      if 9 < parts.length then false
      else
        match (List.range parts.length).filter
            (fun i => decide (0 < i) && decide (i + 1 < parts.length) &&
              (parts.getD i ['0']).isEmpty) with
        | [] =>
          decide (parts.length = 8) && !(parts.headD ['0']).isEmpty &&
          !(parts.getLastD ['0']).isEmpty && parts.all validHextet
        | [i] =>
          let hi := if (parts.headD ['0']).isEmpty then i - 1 else i
          let lo := if (parts.getLastD ['0']).isEmpty then parts.length - i - 2
                    else parts.length - i - 1
          (!(parts.headD ['0']).isEmpty || decide (i = 1)) &&
          (!(parts.getLastD ['0']).isEmpty || decide (i + 2 = parts.length)) &&
          decide (hi + lo + 1 ≤ 8) &&
          (parts.take hi).all validHextet && (parts.reverse.take lo).all validHextet
        | _ => false

/-- `IPv6Address.__init__`: `_split_scope_id` strips an optional
`%scope` suffix — the scope must be non-empty and free of further `%` —
before the core parser runs. -/
def validIPv6 (s : List Char) : Bool :=
  match splitFirst '%' s with
  | (addr, none) => validIPv6Core addr
  | (addr, some scope) =>
    !scope.isEmpty && !(scope.contains '%') && validIPv6Core addr

/-- The IPvFuture pattern of `_check_bracketed_host`,
`\Av[a-fA-F0-9]+\..+\Z` (`.` matches anything but a newline): a `v`,
one or more hex digits, a dot, then at least one more character. -/
def ipvFutureOk (s : List Char) : Bool :=
  match s with
  | 'v' :: rest =>
    !(rest.takeWhile (fun c => (hexVal c).isSome)).isEmpty &&
    (match rest.dropWhile (fun c => (hexVal c).isSome) with
     | '.' :: tail => !tail.isEmpty && tail.all (fun c => c != '\n')
     | _ => false)
  | _ => false

/-- `_check_bracketed_host` (`urllib/parse.py`): a host starting with
`v` must match the IPvFuture pattern; otherwise `ipaddress.ip_address`
must accept it — IPv4 is tried first and, when valid, rejected with
"An IPv4 address cannot be in brackets", so only a valid (possibly
scoped) IPv6 address passes. -/
def checkBracketedHost (s : List Char) : Bool :=
  match s with
  | 'v' :: _ => ipvFutureOk s
  | _ => !validIPv4 s && validIPv6 s

/-! ## Data model (`models.py`) -/

/-- `GopherURL` (pydantic model, `models.py`).  `gopher_type` is a Python
string (validated to length 1), `search` is `Optional[str]`. -/
structure GopherURL where
  host : List Char
  port : Nat
  gopher_type : List Char
  selector : List Char
  search : Option (List Char)
  deriving Repr, DecidableEq

/-- Constructing a `GopherURL` through pydantic runs the two field
validators: port in `1..65535`, `gopher_type` exactly one character.
`none` models a `ValidationError`. -/
def mkGopherURL (host : List Char) (port : Nat) (gopher_type : List Char)
    (selector : List Char) (search : Option (List Char)) : Option GopherURL :=
  if 1 ≤ port ∧ port ≤ 65535 ∧ gopher_type.length = 1 then
    some ⟨host, port, gopher_type, selector, search⟩
  else none

/-- `GopherMenuItem` (pydantic model, `models.py`); it has no validators. -/
structure GopherMenuItem where
  type : Char
  title : List Char
  selector : List Char
  host : List Char
  port : Nat
  next_url : List Char
  deriving Repr, DecidableEq

/-- `CacheEntry` (pydantic model, `models.py`).  Timestamps (Python
floats) are modelled as rationals, `ttl` (Python int) as an integer; the
cached value's type is a parameter. -/
structure CacheEntry (ρ : Type) where
  key : List Char
  value : ρ
  timestamp : ℚ
  ttl : ℤ

/-- `CacheEntry.is_expired`: `current_time - self.timestamp > self.ttl`. -/
def CacheEntry.is_expired {ρ : Type} (e : CacheEntry ρ) (current_time : ℚ) : Bool :=
  decide ((e.ttl : ℚ) < current_time - e.timestamp)

/-- `GeminiCacheEntry` (design model,
`docs/development/gemini_models_design.py`); its `is_expired` has the same
body as `CacheEntry.is_expired`. -/
structure GeminiCacheEntry (ρ : Type) where
  key : List Char
  value : ρ
  timestamp : ℚ
  ttl : ℤ

/-- `GeminiCacheEntry.is_expired`: `current_time - self.timestamp > self.ttl`. -/
def GeminiCacheEntry.is_expired {ρ : Type} (e : GeminiCacheEntry ρ)
    (current_time : ℚ) : Bool :=
  decide ((e.ttl : ℚ) < current_time - e.timestamp)

/-! ## The URL codec (`utils.py`) -/

/-- The authority component: `urlsplit` takes, after `gopher://`, the
characters up to the first `/`, `?` or `#`. -/
def gopherNetloc (url : List Char) : List Char :=
  ((stripUnsafe url).drop 9).takeWhile (fun c => c != '/' && c != '?' && c != '#')

/-- What follows the authority. -/
def gopherAfterNetloc (url : List Char) : List Char :=
  ((stripUnsafe url).drop 9).drop (gopherNetloc url).length

/-- `urlsplit`'s raw path: after the authority, before the first `#`
(fragment) and before the first `?` (query).  The scheme `gopher` is not
in `uses_params`, so `urlparse` performs no `;params` splitting and
`parsed.path` is exactly this. -/
def gopherRawPath (url : List Char) : List Char :=
  (splitFirst '?' (splitFirst '#' (gopherAfterNetloc url)).1).1

/-- `parsed.query`: between the first `?` and the fragment (empty when no
`?` occurs). -/
def gopherQuery (url : List Char) : List Char :=
  ((splitFirst '?' (splitFirst '#' (gopherAfterNetloc url)).1).2).getD []

/-- `path = parsed.path or "/"` in `parse_gopher_url`. -/
def gopherPath (url : List Char) : List Char :=
  match gopherRawPath url with
  | [] => ['/']
  | p => p

/-- The lower-casing CPython's `SplitResult.hostname` applies: lower-case
up to the first `%` (a `%` starts IPv6 zone information, which is
preserved as-is). -/
def hostLower (s : List Char) : List Char :=
  match splitFirst '%' s with
  | (a, none) => a.map asciiLower
  | (a, some b) => a.map asciiLower ++ '%' :: b

/-- The raw host part of CPython's `SplitResult._hostinfo`: after the
last `@`; when a `[` follows, the part of what comes after it up to the
first `]`, otherwise the part before the first `:`. -/
def gopherHostRaw (url : List Char) : List Char :=
  match (splitFirst '[' (afterLast '@' (gopherNetloc url))).2 with
  | some bracketed => (splitFirst ']' bracketed).1
  | none => (splitFirst ':' (afterLast '@' (gopherNetloc url))).1

/-- CPython's `SplitResult.hostname`: the raw host, lower-cased. -/
def gopherHostname (url : List Char) : List Char :=
  hostLower (gopherHostRaw url)

/-- The port part of CPython's `SplitResult._hostinfo`: in the
non-bracket case, what follows the first `:` after the last `@`; in the
bracket case, what follows the first `:` after the closing `]`.
`_hostinfo` turns an empty part into `None`; here `none` or `some []`
both stand for that. -/
def gopherPortStr (url : List Char) : Option (List Char) :=
  match (splitFirst '[' (afterLast '@' (gopherNetloc url))).2 with
  | some bracketed =>
    match (splitFirst ']' bracketed).2 with
    | none => none
    | some afterBr => (splitFirst ':' afterBr).2
  | none => (splitFirst ':' (afterLast '@' (gopherNetloc url))).2

/-- The port of `parse_gopher_url`: `parsed.port or 70`.  CPython's
`SplitResult.port` is `None` for an absent or empty port part and
otherwise runs `if port.isdigit() and port.isascii(): port = int(port)`,
raising `ValueError` (modelled `none`) when the guard fails, and again
when the value exceeds 65535.  Port `0` is falsy in Python, so `0 or 70`
is 70.  (Under the guard every character is an ASCII decimal digit, so
the modelled `int` never returns `none` here.) -/
def gopherPortNum (url : List Char) : Option Nat :=
  match gopherPortStr url with
  | none => some 70
  | some [] => some 70
  | some ps =>
    if pyIsdigit ps && pyIsascii ps then
      match pyIntOfDigits ps with
      | none => none
      | some n => if n ≤ 65535 then some (if n = 0 then 70 else n) else none
    else none

/-- The bracketed host `urlsplit` validates when the netloc contains
both brackets: `netloc.partition('[')[2].partition(']')[0]`. -/
def gopherBracketedHost (url : List Char) : List Char :=
  (splitFirst ']' ((splitFirst '[' (gopherNetloc url)).2.getD [])).1

/-- The `(gopher_type, selector)` extraction of `parse_gopher_url`, before
search handling: a path of length at most 1 gives type `"1"` and an empty
selector, otherwise `path[1]` is the type and `path[2:]` the selector. -/
def gopherTypeSel (url : List Char) : List Char × List Char :=
  match gopherPath url with
  | [] => (['1'], [])
  | [_] => (['1'], [])
  | _ :: t :: rest => ([t], rest)

/-- The literal three-character string `%09` split on by
`parse_gopher_url`. -/
def percent09 : List Char := "%09".toList

/-- The search handling of `parse_gopher_url`: a non-empty query is
URL-decoded into the search; otherwise a `%09` inside the selector splits
it at the first occurrence. -/
def gopherSelSearch (url : List Char) : List Char × Option (List Char) :=
  if gopherQuery url ≠ [] then
    ((gopherTypeSel url).2, some (pyUnquote (gopherQuery url)))
  else
    match findSub percent09 (gopherTypeSel url).2 with
    | some (a, b) => (a, some (pyUnquote b))
    | none => ((gopherTypeSel url).2, none)

/-- `parse_gopher_url` (`utils.py`).  `none` models a raised
`ValueError`/`ValidationError`: the explicit `gopher://` prefix check,
`urlsplit`'s "Invalid IPv6 URL" on a netloc with only one of `[` `]` and
its `_check_bracketed_host` when both are present, the hostname check,
and the port conversion. -/
def parse_gopher_url (url : List Char) : Option GopherURL :=
  if "gopher://".toList.isPrefixOf url then
    if (('[' ∈ gopherNetloc url) ∧ ']' ∉ gopherNetloc url) ∨
        ((']' ∈ gopherNetloc url) ∧ '[' ∉ gopherNetloc url) then none
    else if ('[' ∈ gopherNetloc url) ∧ (']' ∈ gopherNetloc url) ∧
        checkBracketedHost (gopherBracketedHost url) = false then none
    else if gopherHostname url = [] then none
    else
      match gopherPortNum url with
      | none => none
      | some port =>
        mkGopherURL (gopherHostname url) port (gopherTypeSel url).1
          (gopherSelSearch url).1 (gopherSelSearch url).2
  else none

/-- `sanitize_selector` (`utils.py`): rejects TAB/CR/LF and length > 255. -/
def sanitize_selector (selector : List Char) : Option (List Char) :=
  if '\t' ∈ selector ∨ '\r' ∈ selector ∨ '\n' ∈ selector then none
  else if 255 < selector.length then none
  else some selector

/-- `format_gopher_url` (`utils.py`). -/
def format_gopher_url (host : List Char) (port : Nat) (gopher_type : List Char)
    (selector : List Char) (search : Option (List Char)) : Option (List Char) :=
  match sanitize_selector selector with
  | none => none
  | some selector =>
    some ("gopher://".toList ++ host
      ++ (if port ≠ 70 then ':' :: natToChars port else [])
      ++ '/' :: gopher_type ++ selector
      ++ (match search with
          | some q => if ¬q.isEmpty ∧ gopher_type = "7".toList then "%09".toList ++ q else []
          | none => []))

/-! ## The menu parser (`utils.py`) -/

/-- `parse_menu_line` (`utils.py`).  The `try` around the field
extraction ends in `except (ValueError, IndexError): return None`.  No
`IndexError` is reachable (all indices are guarded), but
`int(parts[3])` — run when `parts[3].isdigit()` — raises `ValueError`
when a digit-type character of field 3 carries no decimal value (such as
`'²'`), and the line then yields no item. -/
def parse_menu_line (line : List Char) : Option GopherMenuItem :=
  let l := rstripCRLF line
  if l = [] ∨ l = ['.'] then none
  else
    match pySplit '\t' l with
    | p0 :: p1 :: p2 :: p3 :: _ =>
      match (if pyIsdigit p3 then pyIntOfDigits p3 else some 70) with
      | none => none
      | some port =>
        let item_type := match p0 with | [] => 'i' | c :: _ => c
        let display := p0.drop 1
        some { type := item_type
               title := display
               selector := p1
               host := p2
               port := port
               next_url := "gopher://".toList ++ p2 ++ ':' :: natToChars port
                 ++ '/' :: item_type :: p1 }
    | _ => none

/-! ## The MIME guesser (`utils.py`) -/

/-- The static item-type table of `guess_mime_type`. -/
def typeMappings : List (List Char × List Char) :=
  [("0".toList, "text/plain".toList),
   ("1".toList, "text/gopher-menu".toList),
   ("4".toList, "application/mac-binhex40".toList),
   ("5".toList, "application/zip".toList),
   ("6".toList, "application/x-uuencoded".toList),
   ("7".toList, "text/gopher-menu".toList),
   ("9".toList, "application/octet-stream".toList),
   ("g".toList, "image/gif".toList),
   ("I".toList, "image/jpeg".toList)]

/-- The file-extension table of `guess_mime_type`. -/
def extensionMappings : List (List Char × List Char) :=
  [("txt".toList, "text/plain".toList),
   ("html".toList, "text/html".toList),
   ("htm".toList, "text/html".toList),
   ("jpg".toList, "image/jpeg".toList),
   ("jpeg".toList, "image/jpeg".toList),
   ("png".toList, "image/png".toList),
   ("gif".toList, "image/gif".toList),
   ("pdf".toList, "application/pdf".toList),
   ("zip".toList, "application/zip".toList),
   ("tar".toList, "application/x-tar".toList),
   ("gz".toList, "application/gzip".toList)]

/-- `guess_mime_type` (`utils.py`).  `selector.split(".")[-1]` is the last
element of the split. -/
def guess_mime_type (gopher_type : List Char) (selector : List Char) : List Char :=
  let mime := (typeMappings.lookup gopher_type).getD "application/octet-stream".toList
  if ¬selector.isEmpty ∧ '.' ∈ selector then
    let extension := ((pySplit '.' selector).getLastD []).map asciiLower
    match extensionMappings.lookup extension with
    | some m => m
    | none => mime
  else mime

/-! ## Gemini request validation
(`docs/development/gemini_models_design.py`) -/

/-- UTF-8 encoded length of a Python string
(`len(v.encode("utf-8"))`). -/
def utf8Len (s : List Char) : Nat :=
  (s.map Char.utf8Size).sum

/-- `GeminiFetchRequest.validate_gemini_url`: requires the `gemini://`
prefix and at most 1024 UTF-8 bytes; returns the URL unchanged. -/
def validate_gemini_url (v : List Char) : Option (List Char) :=
  if "gemini://".toList.isPrefixOf v then
    if 1024 < utf8Len v then none else some v
  else none

/-! ## The fetch façade (`server.py`) -/

/-- Outcome of calling an async Python function: a returned value or a
raised exception (with its message). -/
inductive FetchOutcome (ρ : Type) where
  | ok : ρ → FetchOutcome ρ
  | exn : List Char → FetchOutcome ρ
  deriving DecidableEq

/-- `GopherFetchRequest.validate_gopher_url` (`models.py`): the URL must
start with `gopher://`. -/
def validate_gopher_fetch_url (v : List Char) : Option (List Char) :=
  if "gopher://".toList.isPrefixOf v then some v else none

/-- `gopher_fetch` (`server.py`): build a `GopherFetchRequest` (its
validator may raise), call the client, and return its response; the
`except` block logs and then **re-raises**, so both validation errors and
client exceptions propagate to the caller.  The client (`gopher_client.py`
is not part of the sources under study) is a parameter. -/
def gopher_fetch {ρ : Type} (clientFetch : List Char → FetchOutcome ρ)
    (url : List Char) : FetchOutcome ρ :=
  match validate_gopher_fetch_url url with
  | none => .exn "URL must start with 'gopher://'".toList
  | some u => clientFetch u

/-! ## Concrete instances used by counterexamples and witnesses -/

/-- C1 counterexample input: a non-type-7 URL with a query. -/
def c1url : List Char := "gopher://h/0/a?b".toList

/-- What `parse_gopher_url` returns on `c1url`. -/
def c1rec : GopherURL := ⟨"h".toList, 70, "0".toList, "/a".toList, some "b".toList⟩

/-- What `format_gopher_url` produces from `c1rec`: the search is dropped. -/
def c1fmt : List Char := "gopher://h/0/a".toList

/-- Re-parsing `c1fmt`: the search is gone. -/
def c1rec2 : GopherURL := ⟨"h".toList, 70, "0".toList, "/a".toList, none⟩

/-- C1 witness input: a type-7 search URL that does round-trip. -/
def c1wurl : List Char := "gopher://example.com/7/search%09python".toList

/-- `parse_gopher_url` on `c1wurl`. -/
def c1wrec : GopherURL :=
  ⟨"example.com".toList, 70, "7".toList, "/search".toList, some "python".toList⟩

/-- C2 counterexample input: a URL the request validator rejects. -/
def c2url : List Char := "http://example.com/".toList

/-- C3 counterexample input: type-0 URL with a query and a 256-character
selector. -/
def c3url : List Char :=
  "gopher://h/0/".toList ++ List.replicate 256 'a' ++ "?q".toList

/-- C3 witness input. -/
def c3wurl : List Char := "gopher://Example.com:7070/1/docs/readme".toList

/-- `parse_gopher_url` on `c3url`. -/
def c3rec : GopherURL :=
  ⟨"h".toList, 70, "0".toList, '/' :: List.replicate 256 'a', some "q".toList⟩

/-- C4 counterexample input: both a `%09` in the selector and a query. -/
def c4url : List Char := "gopher://h/7/a%09b?q".toList

/-- `parse_gopher_url` on `c4url`: the query wins, the selector keeps its
`%09`. -/
def c4rec : GopherURL := ⟨"h".toList, 70, "7".toList, "/a%09b".toList, some "q".toList⟩

/-- C4 witness input: `%09` split with no query. -/
def c4wurl : List Char := "gopher://h/7/find%09term".toList

/-- `parse_gopher_url` on `c4wurl`. -/
def c4wrec : GopherURL :=
  ⟨"h".toList, 70, "7".toList, "/find".toList, some "term".toList⟩

/-- C5 counterexample input: a menu line with five TAB-separated fields. -/
def c5line : List Char := "1Title\tsel\thost\t70\textra".toList

/-- The item `parse_menu_line` yields on `c5line` (the fifth field is
ignored). -/
def c5item : GopherMenuItem :=
  ⟨'1', "Title".toList, "sel".toList, "host".toList, 70,
   "gopher://host:70/1sel".toList⟩

/-- C5 witness input: four fields, non-numeric port. -/
def c5wline : List Char := "0Hello\tworld\thost\tabc\r\n".toList

/-- C6 counterexample input: a `%09` in the path, no query. -/
def c6url : List Char := "gopher://h/1/a%09b".toList

/-- C6 witness input. -/
def c6wurl : List Char := "gopher://h/0/file.txt".toList

/-- C9 witness input: empty first field. -/
def c9wline : List Char := "\tsel\thost\t70".toList

/-- C9 counterexample input: four fields with an empty first field, the
port field being the digit-type character `²` that `int` cannot
convert. -/
def c9cline : List Char := "\tsel\thost\t²".toList

/-- C8 boundary: a URL of exactly 1024 UTF-8 bytes. -/
def gemini1024 : List Char := "gemini://".toList ++ List.replicate 1015 'a'

/-- C8 boundary: a URL of exactly 1025 UTF-8 bytes. -/
def gemini1025 : List Char := "gemini://".toList ++ List.replicate 1016 'a'

/-! ## Character-safety predicates for the round-trip analysis -/

/-- Characters of a host that `format_gopher_url` can re-serialise into
a bracket-free authority the parser reads back verbatim: no netloc or
path delimiters, no brackets, no `:` (a bracketed IPv6 host such as
`::1` is formatted without its brackets and fails to re-parse), no
stripped bytes. -/
def hostSafeChar (c : Char) : Bool :=
  !isUnsafeUrlChar c && c != '/' && c != '?' && c != '#' &&
  c != '@' && c != ':' && c != '[' && c != ']'

/-- Characters that can occur in a parsed path (and hence selector and
type): no query/fragment delimiters, no stripped bytes. -/
def pathSafeChar (c : Char) : Bool :=
  !isUnsafeUrlChar c && c != '?' && c != '#'

/-- Characters of a search string that survive re-serialisation: no
percent escapes, no query/fragment delimiters, no stripped bytes. -/
def querySafeChar (c : Char) : Bool :=
  !isUnsafeUrlChar c && c != '%' && c != '?' && c != '#'

/-- The side conditions under which a parsed `GopherURL` round-trips
through `format_gopher_url`: every host character survives re-parsing
(in particular the host is not a bracketed IPv6 or IPvFuture literal,
whose brackets the formatter does not restore), the selector fits the
sanitiser's 255-char bound, and a present search must be the type-7 kind
the formatter emits — non-empty, of re-parseable characters, with no
`%09` already inside the selector. -/
def roundtripSafe (u : GopherURL) : Prop :=
  (∀ c ∈ u.host, hostSafeChar c = true) ∧
  u.selector.length ≤ 255 ∧
  (match u.search with
   | none => True
   | some q => u.gopher_type = "7".toList ∧ q ≠ [] ∧
       findSub percent09 u.selector = none ∧ ∀ c ∈ q, querySafeChar c = true)

/-! ## General lemmas about the string primitives -/

theorem mem_stripUnsafe {c : Char} {s : List Char} (h : c ∈ stripUnsafe s) :
    c ∈ s ∧ isUnsafeUrlChar c = false := by
  simpa [stripUnsafe, List.mem_filter] using h

theorem stripUnsafe_eq_self {s : List Char}
    (h : ∀ c ∈ s, isUnsafeUrlChar c = false) : stripUnsafe s = s := by
  simpa [stripUnsafe, List.filter_eq_self] using h

/-! ## C7: cache expiry is strict -/

/-- C7: for every cache entry and every current time `now`,
`is_expired(now)` holds iff `now - timestamp > ttl`; an entry whose age
equals its ttl exactly is not expired.  Proved for `CacheEntry`
(`models.py`) and for `GeminiCacheEntry` (the Gemini design document),
whose `is_expired` bodies are identical. -/
theorem cache_expiry_strict {ρ : Type} (e : CacheEntry ρ) (g : GeminiCacheEntry ρ)
    (now : ℚ) :
    (e.is_expired now = true ↔ (e.ttl : ℚ) < now - e.timestamp) ∧
    (now - e.timestamp = (e.ttl : ℚ) → e.is_expired now = false) ∧
    (g.is_expired now = true ↔ (g.ttl : ℚ) < now - g.timestamp) ∧
    (now - g.timestamp = (g.ttl : ℚ) → g.is_expired now = false) := by
  refine ⟨by simp [CacheEntry.is_expired], fun h => ?_,
    by simp [GeminiCacheEntry.is_expired], fun h => ?_⟩ <;>
    simp [CacheEntry.is_expired, GeminiCacheEntry.is_expired, h]

/-- C7 witness: an entry created at time 5 with ttl 3, read at time 8
(age = ttl exactly), is not expired. -/
theorem cache_expiry_strict_witness :
    ((8 : ℚ) - 5 = ((3 : ℤ) : ℚ)) ∧
    CacheEntry.is_expired ⟨[], (), 5, 3⟩ 8 = false ∧
    GeminiCacheEntry.is_expired ⟨[], (), 5, 3⟩ 8 = false :=
  ⟨by norm_num,
   (cache_expiry_strict ⟨[], (), 5, 3⟩ ⟨[], (), 5, 3⟩ 8).2.1 (by norm_num),
   (cache_expiry_strict ⟨[], (), 5, 3⟩ ⟨[], (), 5, 3⟩ 8).2.2.2 (by norm_num)⟩

/-! ## C8: the Gemini URL length gate -/

theorem utf8Len_append (a b : List Char) :
    utf8Len (a ++ b) = utf8Len a + utf8Len b := by
  simp [utf8Len]

theorem utf8Len_replicate_a (n : Nat) : utf8Len (List.replicate n 'a') = n := by
  simp [utf8Len, List.map_replicate, show Char.utf8Size 'a' = 1 from by decide]

theorem validate_gemini_url_isSome (v : List Char) :
    (validate_gemini_url v).isSome = true ↔
      ("gemini://".toList.isPrefixOf v = true ∧ utf8Len v ≤ 1024) := by
  unfold validate_gemini_url
  split
  case isTrue hp =>
    split
    case isTrue hl => simp only [hp]; simp; omega
    case isFalse hl => simp only [hp]; simp; omega
  case isFalse hp => simp_all

/-- C8: `validate_gemini_url` accepts exactly the URLs that begin with
`gemini://` and whose UTF-8 encoding is at most 1024 bytes; in
particular a 1024-byte URL is accepted and a 1025-byte URL rejected. -/
theorem gemini_url_length_boundary :
    (∀ v : List Char, (validate_gemini_url v).isSome = true ↔
      ("gemini://".toList.isPrefixOf v = true ∧ utf8Len v ≤ 1024)) ∧
    utf8Len gemini1024 = 1024 ∧ (validate_gemini_url gemini1024).isSome = true ∧
    utf8Len gemini1025 = 1025 ∧ validate_gemini_url gemini1025 = none := by
  have hg : utf8Len "gemini://".toList = 9 := by decide
  have h1024 : utf8Len gemini1024 = 1024 := by
    rw [gemini1024, utf8Len_append, utf8Len_replicate_a, hg]
  have h1025 : utf8Len gemini1025 = 1025 := by
    rw [gemini1025, utf8Len_append, utf8Len_replicate_a, hg]
  refine ⟨validate_gemini_url_isSome, h1024, ?_, h1025, ?_⟩
  · refine (validate_gemini_url_isSome _).mpr ⟨?_, by omega⟩
    rw [gemini1024]
    exact List.isPrefixOf_iff_prefix.mpr (List.prefix_append _ _)
  · cases hv : validate_gemini_url gemini1025 with
    | none => rfl
    | some w =>
      have := (validate_gemini_url_isSome gemini1025).mp (by simp [hv])
      omega

/-! ## C2: the fetch façade re-raises -/

/-- C2 counterexample: with a client that never raises, `gopher_fetch`
still raises on a URL that fails request validation — the parse failure
is not recovered into an `ErrorResult`. -/
theorem gopher_fetch_counterexample :
    gopher_fetch (fun _ => FetchOutcome.ok ()) c2url =
      FetchOutcome.exn "URL must start with 'gopher://'".toList := by
  decide

/-- C2 amended: `gopher_fetch` propagates exceptions to its caller: a URL
failing the `gopher://` prefix validation raises a validation error
regardless of the client, and for a valid URL the façade returns the
client's outcome unchanged — including a raised exception. -/
theorem gopher_fetch_propagates {ρ : Type} (clientFetch : List Char → FetchOutcome ρ)
    (url : List Char) :
    ("gopher://".toList.isPrefixOf url = false →
      gopher_fetch clientFetch url =
        FetchOutcome.exn "URL must start with 'gopher://'".toList) ∧
    ("gopher://".toList.isPrefixOf url = true →
      gopher_fetch clientFetch url = clientFetch url) := by
  constructor <;> intro h <;>
    · simp only [gopher_fetch, validate_gopher_fetch_url, h]
      simp

/-- C2 witness: both branches of `gopher_fetch_propagates` at concrete
inputs. -/
theorem gopher_fetch_propagates_witness :
    ("gopher://".toList.isPrefixOf c2url = false ∧
      gopher_fetch (fun _ => FetchOutcome.ok ()) c2url =
        FetchOutcome.exn "URL must start with 'gopher://'".toList) ∧
    ("gopher://".toList.isPrefixOf "gopher://h/".toList = true ∧
      gopher_fetch (fun _ => (FetchOutcome.exn "boom".toList : FetchOutcome Unit))
          "gopher://h/".toList =
        FetchOutcome.exn "boom".toList) :=
  ⟨⟨by decide, (gopher_fetch_propagates _ c2url).1 (by decide)⟩,
   ⟨by decide,
    (gopher_fetch_propagates
      (fun _ => (FetchOutcome.exn "boom".toList : FetchOutcome Unit))
      "gopher://h/".toList).2 (by decide)⟩⟩

/-! ## C10: extension overrides the type table in `guess_mime_type` -/

/-- C10: in `guess_mime_type`, a recognised file extension (the last
`.`-separated component of the selector, lower-cased) overrides the
item-type table; with no recognised extension the result is the type-table
value, which defaults to `application/octet-stream` for unknown types. -/
theorem guess_mime_extension_overrides (t sel : List Char) :
    (∀ m, '.' ∈ sel →
      extensionMappings.lookup (((pySplit '.' sel).getLastD []).map asciiLower) =
        some m →
      guess_mime_type t sel = m) ∧
    (('.' ∉ sel ∨
      extensionMappings.lookup (((pySplit '.' sel).getLastD []).map asciiLower) =
        none) →
      guess_mime_type t sel =
        (typeMappings.lookup t).getD "application/octet-stream".toList) := by
  constructor
  · intro m hdot hlk
    have hne : ¬sel.isEmpty = true := by cases sel <;> simp_all
    simp only [List.getLastD_eq_getLast?] at hlk
    simp [guess_mime_type, hne, hdot, hlk]
  · rintro (h | h)
    · simp [guess_mime_type, h]
    · by_cases hdot : '.' ∈ sel
      · have hne : ¬sel.isEmpty = true := by cases sel <;> simp_all
        simp only [List.getLastD_eq_getLast?] at h
        simp [guess_mime_type, hne, hdot, h]
      · simp [guess_mime_type, hdot]

/-- C10 witness: `.TXT` overrides type `9`; an unrecognised extension on
an unknown type falls back to `application/octet-stream`. -/
theorem guess_mime_extension_overrides_witness :
    ('.' ∈ "file.TXT".toList ∧
      extensionMappings.lookup
        (((pySplit '.' "file.TXT".toList).getLastD []).map asciiLower) =
        some "text/plain".toList ∧
      guess_mime_type "9".toList "file.TXT".toList = "text/plain".toList) ∧
    (extensionMappings.lookup
        (((pySplit '.' "data.bin".toList).getLastD []).map asciiLower) = none ∧
      guess_mime_type "X".toList "data.bin".toList =
        (typeMappings.lookup "X".toList).getD "application/octet-stream".toList) :=
  ⟨⟨by decide, by decide,
    (guess_mime_extension_overrides "9".toList "file.TXT".toList).1 _
      (by decide) (by decide)⟩,
   ⟨by decide,
    (guess_mime_extension_overrides "X".toList "data.bin".toList).2
      (Or.inr (by decide))⟩⟩

/-! ## C9: empty first field gives an info line -/

/-- C9 counterexample: `c9cline` splits on TAB into exactly four fields
with an empty first field, yet `parse_menu_line` yields no item — the
port field `²` passes `isdigit`, so `int` runs and raises, and the
`except` clause returns `None`.  The claim's "every ≥4-field line with
an empty first field parses to an info item" is false of the program. -/
theorem menu_line_empty_first_field_counterexample :
    pySplit '\t' (rstripCRLF c9cline) =
      [[], "sel".toList, "host".toList, ['²']] ∧
    pyIsdigit ['²'] = true ∧
    pyIntOfDigits ['²'] = none ∧
    parse_menu_line c9cline = none := by
  refine ⟨by decide, by decide, by decide, by decide⟩

/-- C9 amended: a menu line that splits on TAB into at least four fields
with an empty first field parses to an item of type `i` with an empty
title, provided the port field does not make `int` raise: field 3 is
either not digit-type (the port then defaults) or converts without
error. -/
theorem menu_line_empty_first_field (line p1 p2 p3 : List Char)
    (rest : List (List Char))
    (h : pySplit '\t' (rstripCRLF line) = [] :: p1 :: p2 :: p3 :: rest)
    (hport : pyIsdigit p3 = false ∨ (pyIntOfDigits p3).isSome = true) :
    (parse_menu_line line).map (fun i => (i.type, i.title)) = some ('i', []) := by
  have h0 : rstripCRLF line ≠ [] := by
    intro hl; rw [hl] at h; simp [pySplit] at h
  have h1 : rstripCRLF line ≠ ['.'] := by
    intro hl; rw [hl] at h
    rw [show pySplit '\t' ['.'] = [['.']] from by decide] at h
    simp at h
  have hcond : ¬(rstripCRLF line = [] ∨ rstripCRLF line = ['.']) :=
    fun hc => hc.elim h0 h1
  rcases hport with hpd | hps
  · simp [parse_menu_line, hcond, h, hpd]
  · obtain ⟨n, hn⟩ := Option.isSome_iff_exists.mp hps
    by_cases hpd : pyIsdigit p3 = true
    · simp [parse_menu_line, hcond, h, hpd, hn]
    · simp [parse_menu_line, hcond, h, hpd]

/-- C9 witness. -/
theorem menu_line_empty_first_field_witness :
    pySplit '\t' (rstripCRLF c9wline) =
      [[], "sel".toList, "host".toList, "70".toList] ∧
    (pyIntOfDigits "70".toList).isSome = true ∧
    (parse_menu_line c9wline).map (fun i => (i.type, i.title)) = some ('i', []) :=
  ⟨by decide, by decide,
   menu_line_empty_first_field c9wline "sel".toList "host".toList "70".toList []
     (by decide) (Or.inr (by decide))⟩

/-! ## C5: menu lines split into at least four fields -/

/-- C5 counterexample: a line with five TAB-separated fields is *not*
skipped — `parse_menu_line` yields an item (the claim's "exactly four
fields, no item otherwise" fails). -/
theorem parse_menu_line_counterexample :
    parse_menu_line c5line = some c5item ∧
    (pySplit '\t' (rstripCRLF c5line)).length = 5 := by
  decide

/-- C5 amended: for every non-empty, non-terminator line,
`parse_menu_line` splits on TAB into **at least** four fields (extra
fields are ignored), takes the first character of field 0 as the type
(and the remainder as title), field 1 as selector and field 2 as host;
the port defaults to 70 when field 3 is not digit-type, is `int` of
field 3 when that conversion succeeds, and the line yields no item when
field 3 is digit-type but `int` raises; lines with fewer than four
fields also yield no item. -/
theorem parse_menu_line_fields (line : List Char) :
    (∀ p0 p1 p2 p3 rest,
      pySplit '\t' (rstripCRLF line) = p0 :: p1 :: p2 :: p3 :: rest →
      (pyIsdigit p3 = false →
        parse_menu_line line = some
          { type := p0.headD 'i', title := p0.drop 1, selector := p1, host := p2,
            port := 70,
            next_url := "gopher://".toList ++ p2 ++ ':' :: natToChars 70 ++
              '/' :: p0.headD 'i' :: p1 }) ∧
      (∀ n, pyIsdigit p3 = true → pyIntOfDigits p3 = some n →
        parse_menu_line line = some
          { type := p0.headD 'i', title := p0.drop 1, selector := p1, host := p2,
            port := n,
            next_url := "gopher://".toList ++ p2 ++ ':' :: natToChars n ++
              '/' :: p0.headD 'i' :: p1 }) ∧
      (pyIsdigit p3 = true → pyIntOfDigits p3 = none →
        parse_menu_line line = none)) ∧
    (∀ parts, pySplit '\t' (rstripCRLF line) = parts → parts.length < 4 →
      parse_menu_line line = none) := by
  constructor
  · intro p0 p1 p2 p3 rest h
    have h0 : rstripCRLF line ≠ [] := by
      intro hl; rw [hl] at h; simp [pySplit] at h
    have h1 : rstripCRLF line ≠ ['.'] := by
      intro hl; rw [hl] at h
      rw [show pySplit '\t' ['.'] = [['.']] from by decide] at h
      simp at h
    have hcond : ¬(rstripCRLF line = [] ∨ rstripCRLF line = ['.']) :=
      fun hc => hc.elim h0 h1
    refine ⟨?_, ?_, ?_⟩
    · intro hpd
      cases p0 <;> simp [parse_menu_line, hcond, h, hpd, List.headD]
    · intro n hpd hn
      cases p0 <;> simp [parse_menu_line, hcond, h, hpd, hn, List.headD]
    · intro hpd hn
      simp [parse_menu_line, hcond, h, hpd, hn]
  · intro parts h hlen
    by_cases hc : rstripCRLF line = [] ∨ rstripCRLF line = ['.']
    · simp [parse_menu_line, hc]
    · rcases parts with _ | ⟨p0, _ | ⟨p1, _ | ⟨p2, _ | ⟨p3, rest⟩⟩⟩⟩ <;>
        first
        | (simp [parse_menu_line, hc, h]; done)
        | (exfalso; simp at hlen; omega)

/-- C5 witness: a four-field line with a non-numeric port field. -/
theorem parse_menu_line_fields_witness :
    pySplit '\t' (rstripCRLF c5wline) =
      ["0Hello".toList, "world".toList, "host".toList, "abc".toList] ∧
    pyIsdigit "abc".toList = false ∧
    parse_menu_line c5wline = some
      ⟨'0', "Hello".toList, "world".toList, "host".toList, 70,
       "gopher://host:70/0world".toList⟩ :=
  ⟨by decide, by decide,
   ((parse_menu_line_fields c5wline).1 "0Hello".toList "world".toList
     "host".toList "abc".toList [] (by decide)).1 (by decide)⟩

/-! ## Anatomy of a successful `parse_gopher_url` -/

theorem splitFirst_fst (sep : Char) (s : List Char) :
    (splitFirst sep s).1 = s.takeWhile (fun c => c != sep) := rfl

/-- Everything a successful parse pins down, in terms of the named
pipeline stages. -/
theorem parse_components {url : List Char} {u : GopherURL}
    (h : parse_gopher_url url = some u) :
    u.host = gopherHostname url ∧
    gopherPortNum url = some u.port ∧
    u.gopher_type = (gopherTypeSel url).1 ∧
    u.selector = (gopherSelSearch url).1 ∧
    u.search = (gopherSelSearch url).2 ∧
    1 ≤ u.port ∧ u.port ≤ 65535 ∧ u.gopher_type.length = 1 ∧
    "gopher://".toList.isPrefixOf url = true ∧
    gopherHostname url ≠ [] ∧
    (('[' ∈ gopherNetloc url) ↔ (']' ∈ gopherNetloc url)) ∧
    ('[' ∈ gopherNetloc url →
      checkBracketedHost (gopherBracketedHost url) = true) := by
  unfold parse_gopher_url at h
  split at h
  case isFalse hpre => simp at h
  case isTrue hpre =>
    split at h
    case isTrue hbr1 => simp at h
    case isFalse hbr1 =>
      split at h
      case isTrue hbr2 => simp at h
      case isFalse hbr2 =>
        split at h
        case isTrue hh => simp at h
        case isFalse hh =>
          split at h
          case h_1 => simp at h
          case h_2 port hport =>
            unfold mkGopherURL at h
            split at h
            case isFalse => simp at h
            case isTrue hg =>
              injection h with h
              subst h
              have hiff : ('[' ∈ gopherNetloc url) ↔ (']' ∈ gopherNetloc url) := by
                constructor
                · intro hl
                  by_contra hr
                  exact hbr1 (Or.inl ⟨hl, hr⟩)
                · intro hr
                  by_contra hl
                  exact hbr1 (Or.inr ⟨hr, hl⟩)
              refine ⟨rfl, hport, rfl, rfl, rfl, hg.1, hg.2.1, hg.2.2, hpre, hh,
                hiff, ?_⟩
              intro hl
              by_contra hc
              exact hbr2 ⟨hl, hiff.mp hl, by simpa using hc⟩

theorem findSub_fst_leading (sep : List Char) :
    ∀ {s a b : List Char}, findSub sep s = some (a, b) → a <+: s := by
  intro s
  induction s with
  | nil =>
    intro a b h
    unfold findSub at h
    split at h
    · injection h with h
      cases h
      exact List.nil_prefix
    · simp at h
  | cons c rest ih =>
    intro a b h
    unfold findSub at h
    split at h
    · injection h with h
      cases h
      exact List.nil_prefix
    · revert h
      split
      case h_1 a0 b0 heq =>
        intro h
        injection h with h
        cases h
        obtain ⟨t, ht⟩ := ih heq
        exact ⟨t, by rw [List.cons_append, ht]⟩
      case h_2 => intro h; simp at h

theorem gopherRawPath_subset (url : List Char) :
    gopherRawPath url ⊆ stripUnsafe url := by
  intro c hc
  rw [gopherRawPath, splitFirst_fst] at hc
  have hc := List.takeWhile_subset _ hc
  rw [splitFirst_fst] at hc
  have hc := List.takeWhile_subset _ hc
  rw [gopherAfterNetloc] at hc
  have hc := List.drop_subset _ _ hc
  exact List.drop_subset _ _ hc

theorem mem_gopherPath {url : List Char} {c : Char} (hc : c ∈ gopherPath url) :
    c = '/' ∨ c ∈ stripUnsafe url := by
  rw [gopherPath] at hc
  cases hraw : gopherRawPath url with
  | nil =>
    rw [hraw] at hc
    simp at hc
    exact Or.inl hc
  | cons a as =>
    rw [hraw] at hc
    have hred : (match (a :: as : List Char) with | [] => ['/'] | p => p) = a :: as := rfl
    rw [hred, ← hraw] at hc
    exact Or.inr (gopherRawPath_subset url hc)

theorem mem_typeSel {url : List Char} {c : Char}
    (hc : c ∈ (gopherTypeSel url).2) : c ∈ gopherPath url := by
  rw [gopherTypeSel] at hc
  revert hc
  split <;> intro hc
  · simp at hc
  · simp at hc
  case h_3 a t rest heq => exact heq ▸ List.mem_cons_of_mem _ (List.mem_cons_of_mem _ hc)

theorem mem_selSearch {url : List Char} {c : Char}
    (hc : c ∈ (gopherSelSearch url).1) : c ∈ (gopherTypeSel url).2 := by
  rw [gopherSelSearch] at hc
  revert hc
  split <;> intro hc
  · exact hc
  · revert hc
    split <;> intro hc
    case h_1 a b heq =>
      exact (findSub_fst_leading _ heq).subset hc
    · exact hc

/-- Characters of the parsed selector survive the tab/CR/LF stripping
(or are the literal `/` that replaces an empty path). -/
theorem mem_selector_safe {url : List Char} {u : GopherURL}
    (h : parse_gopher_url url = some u) {c : Char} (hc : c ∈ u.selector) :
    isUnsafeUrlChar c = false := by
  obtain ⟨-, -, -, hsel, -⟩ := parse_components h
  have hc := mem_typeSel (mem_selSearch (hsel ▸ hc))
  rcases mem_gopherPath hc with hc | hc
  · subst hc; rfl
  · exact (mem_stripUnsafe hc).2

/-! ## C3: invariants of a parsed `GopherURL` -/

set_option maxRecDepth 16384 in
/-- C3 counterexample: a successfully parsed URL whose selector is 257
characters (the claimed 255-byte bound fails — nothing limits the
selector length on the parse path) and whose search is present although
the type is `0` (the claimed "search only for type 7" fails). -/
theorem gopher_url_invariants_counterexample :
    parse_gopher_url c3url = some c3rec ∧
    255 < c3rec.selector.length ∧
    c3rec.search.isSome = true ∧
    c3rec.gopher_type ≠ "7".toList := by
  refine ⟨by decide, by norm_num [c3rec], by decide, by decide⟩

/-- C3 amended: every `GopherURL` produced by `parse_gopher_url` has a
non-empty host, a port in `1..65535`, a one-character type, and a
selector free of TAB/CR/LF.  (The selector may exceed 255 bytes, and the
search may be present for any type, not only `7` — see the
counterexample.) -/
theorem gopher_url_invariants (url : List Char) (u : GopherURL)
    (h : parse_gopher_url url = some u) :
    u.host ≠ [] ∧ 1 ≤ u.port ∧ u.port ≤ 65535 ∧ u.gopher_type.length = 1 ∧
    '\t' ∉ u.selector ∧ '\r' ∉ u.selector ∧ '\n' ∉ u.selector := by
  obtain ⟨hhost, -, -, -, -, hp1, hp2, hlen, -, hne, -⟩ := parse_components h
  refine ⟨hhost ▸ hne, hp1, hp2, hlen, ?_, ?_, ?_⟩ <;>
    · intro hmem
      have := mem_selector_safe h hmem
      simp [isUnsafeUrlChar] at this

/-- C3 witness. -/
theorem gopher_url_invariants_witness :
    parse_gopher_url c3wurl =
      some ⟨"example.com".toList, 7070, "1".toList, "/docs/readme".toList, none⟩ ∧
    ("example.com".toList ≠ [] ∧ 1 ≤ 7070 ∧ 7070 ≤ 65535 ∧
      ("1".toList : List Char).length = 1 ∧
      '\t' ∉ "/docs/readme".toList ∧ '\r' ∉ "/docs/readme".toList ∧
      '\n' ∉ "/docs/readme".toList) :=
  ⟨by decide,
   gopher_url_invariants c3wurl
     ⟨"example.com".toList, 7070, "1".toList, "/docs/readme".toList, none⟩
     (by decide)⟩

/-! ## C6: item type and selector extraction -/

/-- C6 counterexample: for `c6url` the path is `/1/a%09b`, so the claim's
"rest of the path" is `/a%09b` — but the returned selector is `/a`,
because with no query the selector is further split at the `%09`. -/
theorem gopher_type_extraction_counterexample :
    gopherPath c6url = "/1/a%09b".toList ∧
    (parse_gopher_url c6url).map GopherURL.selector = some "/a".toList ∧
    ("/a".toList : List Char) ≠ "/1/a%09b".toList.drop 2 := by
  decide

/-- C6 amended: for every accepted URL, a path of `/` or empty gives type
`1` and an empty selector; otherwise the first character after `/` is the
type and the rest of the path is the selector — except that, when the URL
has no query and that rest contains `%09`, only the part before the first
`%09` becomes the selector. -/
theorem gopher_type_extraction (url : List Char) (u : GopherURL)
    (h : parse_gopher_url url = some u) :
    ((gopherPath url).length ≤ 1 → u.gopher_type = "1".toList ∧ u.selector = []) ∧
    (∀ c t rest, gopherPath url = c :: t :: rest →
      u.gopher_type = [t] ∧
      (gopherQuery url ≠ [] → u.selector = rest) ∧
      (gopherQuery url = [] → findSub percent09 rest = none →
        u.selector = rest) ∧
      (gopherQuery url = [] → ∀ a b, findSub percent09 rest = some (a, b) →
        u.selector = a)) := by
  obtain ⟨-, -, htype, hsel, -⟩ := parse_components h
  constructor
  · intro hlen
    have htypesel : gopherTypeSel url = (['1'], []) := by
      rcases hp : gopherPath url with _ | ⟨c, _ | ⟨t, rest⟩⟩
      · rw [gopherTypeSel, hp]
      · rw [gopherTypeSel, hp]
      · rw [hp] at hlen; simp at hlen
    refine ⟨by simp [htype, htypesel], ?_⟩
    rw [gopherSelSearch, htypesel] at hsel
    by_cases hq0 : gopherQuery url = []
    · simpa [hq0, show findSub percent09 [] = none from by decide] using hsel
    · simpa [hq0] using hsel
  · intro c t rest hp
    have htypesel : gopherTypeSel url = ([t], rest) := by
      rw [gopherTypeSel, hp]
    refine ⟨by simp [htype, htypesel], ?_, ?_, ?_⟩
    · intro hq
      rw [gopherSelSearch, htypesel] at hsel
      simpa [hq] using hsel
    · intro hq hf
      rw [gopherSelSearch, htypesel] at hsel
      simpa [hq, hf] using hsel
    · intro hq a b hf
      rw [gopherSelSearch, htypesel] at hsel
      simpa [hq, hf] using hsel

/-- C6 witness: a typical type-0 URL. -/
theorem gopher_type_extraction_witness :
    parse_gopher_url c6wurl =
      some ⟨"h".toList, 70, "0".toList, "/file.txt".toList, none⟩ ∧
    gopherPath c6wurl = "/0/file.txt".toList ∧
    ("0".toList : List Char) = ['0'] ∧
    gopherQuery c6wurl = [] ∧
    findSub percent09 "/file.txt".toList = none ∧
    GopherURL.selector ⟨"h".toList, 70, "0".toList, "/file.txt".toList, none⟩ =
      "/file.txt".toList := by
  have happ := (gopher_type_extraction c6wurl
      ⟨"h".toList, 70, "0".toList, "/file.txt".toList, none⟩ (by decide)).2
      '/' '0' "/file.txt".toList (by decide)
  exact ⟨by decide, by decide, happ.1, by decide, by decide,
    happ.2.2.1 (by decide) (by decide)⟩

/-! ## C4: search extraction precedence -/

/-- C4 counterexample: `c4url` has both a `%09` in its selector portion
and a query; the claim gives the `%09` split precedence, but the parse
keeps the whole selector (the `%09` still inside it) and takes the search
from the query. -/
theorem search_precedence_counterexample :
    parse_gopher_url c4url = some c4rec ∧
    "%09".toList <:+: c4rec.selector ∧
    c4rec.search = some "q".toList := by
  refine ⟨by decide, ⟨"/a".toList, "b".toList, by decide⟩, by decide⟩

/-- C4 amended: a non-empty query takes precedence: the search is the
URL-decoded query and the selector is left untouched (even when it
contains `%09`); only with an empty query is the selector split at its
first `%09`, the part after it (URL-decoded) becoming the search. -/
theorem search_precedence (url : List Char) (u : GopherURL)
    (h : parse_gopher_url url = some u) :
    (gopherQuery url ≠ [] →
      u.selector = (gopherTypeSel url).2 ∧
      u.search = some (pyUnquote (gopherQuery url))) ∧
    (gopherQuery url = [] →
      (∀ a b, findSub percent09 (gopherTypeSel url).2 = some (a, b) →
        u.selector = a ∧ u.search = some (pyUnquote b)) ∧
      (findSub percent09 (gopherTypeSel url).2 = none →
        u.selector = (gopherTypeSel url).2 ∧ u.search = none)) := by
  obtain ⟨-, -, -, hsel, hsearch, -⟩ := parse_components h
  constructor
  · intro hq
    rw [gopherSelSearch] at hsel hsearch
    exact ⟨by simpa [hq] using hsel, by simpa [hq] using hsearch⟩
  · intro hq
    constructor
    · intro a b hf
      rw [gopherSelSearch] at hsel hsearch
      exact ⟨by simpa [hq, hf] using hsel, by simpa [hq, hf] using hsearch⟩
    · intro hf
      rw [gopherSelSearch] at hsel hsearch
      exact ⟨by simpa [hq, hf] using hsel, by simpa [hq, hf] using hsearch⟩

/-- C4 witness: an empty query and a `%09` split. -/
theorem search_precedence_witness :
    parse_gopher_url c4wurl = some c4wrec ∧
    gopherQuery c4wurl = [] ∧
    findSub percent09 (gopherTypeSel c4wurl).2 =
      some ("/find".toList, "term".toList) ∧
    c4wrec.selector = "/find".toList ∧
    c4wrec.search = some (pyUnquote "term".toList) := by
  have happ := ((search_precedence c4wurl c4wrec (by decide)).2 (by decide)).1
    "/find".toList "term".toList (by decide)
  exact ⟨by decide, by decide, by decide, happ.1, happ.2⟩

/-! ## Toolkit for the round-trip proof: takeWhile and splitFirst -/

theorem takeWhile_all {α : Type} {p : α → Bool} :
    ∀ {s : List α}, (∀ c ∈ s, p c = true) → s.takeWhile p = s := by
  intro s
  induction s with
  | nil => intro; rfl
  | cons c rest ih =>
    intro h
    rw [List.takeWhile_cons_of_pos (h c (List.mem_cons_self c rest)),
      ih (fun x hx => h x (List.mem_cons_of_mem c hx))]

theorem dropWhile_all {α : Type} {p : α → Bool} :
    ∀ {s : List α}, (∀ c ∈ s, p c = true) → s.dropWhile p = [] := by
  intro s
  induction s with
  | nil => intro; rfl
  | cons c rest ih =>
    intro h
    rw [List.dropWhile_cons_of_pos (h c (List.mem_cons_self c rest))]
    exact ih (fun x hx => h x (List.mem_cons_of_mem c hx))

theorem mem_takeWhile_pred {α : Type} {p : α → Bool} :
    ∀ {s : List α} {c : α}, c ∈ s.takeWhile p → p c = true := by
  intro s
  induction s with
  | nil => intro c h; simp at h
  | cons a rest ih =>
    intro c h
    rw [List.takeWhile_cons] at h
    by_cases hp : p a = true
    · rw [if_pos hp] at h
      rcases List.mem_cons.mp h with rfl | h
      · exact hp
      · exact ih h
    · rw [if_neg hp] at h
      simp at h

theorem bne_all_of_not_mem {sep : Char} {s : List Char} (h : sep ∉ s) :
    ∀ c ∈ s, (c != sep) = true := by
  intro c hc
  simp only [bne_iff_ne, ne_eq]
  rintro rfl
  exact h hc

theorem splitFirst_of_not_mem {sep : Char} {s : List Char} (h : sep ∉ s) :
    splitFirst sep s = (s, none) := by
  unfold splitFirst
  rw [takeWhile_all (bne_all_of_not_mem h), dropWhile_all (bne_all_of_not_mem h)]

theorem splitFirst_append_sep {sep : Char} {a b : List Char} (h : sep ∉ a) :
    splitFirst sep (a ++ sep :: b) = (a, some b) := by
  unfold splitFirst
  rw [List.takeWhile_append_of_pos (bne_all_of_not_mem h),
    List.dropWhile_append_of_pos (bne_all_of_not_mem h),
    List.takeWhile_cons_of_neg (by simp), List.dropWhile_cons_of_neg (by simp)]
  simp

theorem mem_splitFirst_fst_of {sep : Char} {s : List Char} {c : Char}
    (h : c ∈ (splitFirst sep s).1) : c ∈ s ∧ c ≠ sep := by
  rw [splitFirst_fst] at h
  refine ⟨List.takeWhile_subset _ h, ?_⟩
  have := mem_takeWhile_pred h
  simpa using this

theorem mem_splitFirst_snd_of {sep : Char} {s b : List Char} {c : Char}
    (hb : (splitFirst sep s).2 = some b) (h : c ∈ b) : c ∈ s := by
  unfold splitFirst at hb
  revert hb
  cases hd : s.dropWhile (fun c => c != sep) with
  | nil => simp
  | cons x r =>
    intro hb
    injection hb with hb
    subst hb
    exact List.dropWhile_subset _ (hd ▸ List.mem_cons_of_mem x h)

/-! ## Toolkit: afterLast -/

theorem afterLast_of_not_mem {sep : Char} {s : List Char} (h : sep ∉ s) :
    afterLast sep s = s := by
  unfold afterLast
  rw [takeWhile_all (bne_all_of_not_mem (by simpa using h)), List.reverse_reverse]

theorem not_mem_afterLast (sep : Char) (s : List Char) : sep ∉ afterLast sep s := by
  unfold afterLast
  intro h
  rw [List.mem_reverse] at h
  have := mem_takeWhile_pred h
  simp at this

theorem mem_afterLast {sep c : Char} {s : List Char} (h : c ∈ afterLast sep s) :
    c ∈ s := by
  unfold afterLast at h
  rw [List.mem_reverse] at h
  have := List.takeWhile_subset _ h
  rwa [List.mem_reverse] at this

/-! ## Toolkit: asciiLower and hostLower -/

theorem asciiLower_cases (c : Char) :
    asciiLower c = c ∨
    (65 ≤ c.toNat ∧ c.toNat ≤ 90 ∧ (asciiLower c).toNat = c.toNat + 32) := by
  unfold asciiLower
  split
  case isTrue h =>
    right
    obtain ⟨h1, h2⟩ := h
    refine ⟨h1, h2, ?_⟩
    generalize c.toNat = n at h1 h2 ⊢
    interval_cases n <;> decide
  case isFalse h => exact Or.inl rfl

theorem asciiLower_of_not_upper {c : Char}
    (h : ¬(65 ≤ c.toNat ∧ c.toNat ≤ 90)) : asciiLower c = c := by
  unfold asciiLower
  rw [if_neg h]

theorem asciiLower_reflect {c d : Char} (h : asciiLower c = d)
    (hd : d.toNat < 97) : c = d := by
  rcases asciiLower_cases c with hc | ⟨h1, h2, h3⟩
  · exact hc.symm.trans h
  · rw [h] at h3
    omega

theorem asciiLower_idem (c : Char) : asciiLower (asciiLower c) = asciiLower c := by
  rcases asciiLower_cases c with hc | ⟨h1, h2, h3⟩
  · rw [hc, hc]
  · exact asciiLower_of_not_upper (by omega)

theorem map_asciiLower_idem (s : List Char) :
    (s.map asciiLower).map asciiLower = s.map asciiLower := by
  induction s with
  | nil => rfl
  | cons c rest ih => simp [asciiLower_idem, ih]

theorem hostLower_idem (s : List Char) : hostLower (hostLower s) = hostLower s := by
  have hfst : '%' ∉ (splitFirst '%' s).1 := fun hmem =>
    (mem_splitFirst_fst_of hmem).2 rfl
  have hmap : '%' ∉ ((splitFirst '%' s).1).map asciiLower := by
    intro hmem
    obtain ⟨x, hx, hxe⟩ := List.mem_map.mp hmem
    have : x = '%' := asciiLower_reflect hxe (by decide)
    exact hfst (this ▸ hx)
  unfold hostLower
  cases hsp : splitFirst '%' s with
  | mk a bo =>
    rw [hsp] at hfst hmap
    cases bo with
    | none =>
      simp only
      rw [splitFirst_of_not_mem hmap]
      simp only
      rw [map_asciiLower_idem]
    | some b =>
      simp only
      rw [splitFirst_append_sep hmap]
      simp only
      rw [map_asciiLower_idem]

theorem mem_hostLower {s : List Char} {c : Char} (h : c ∈ hostLower s) :
    c = '%' ∨ (∃ x ∈ s, asciiLower x = c) ∨ c ∈ s := by
  unfold hostLower at h
  cases hsp : splitFirst '%' s with
  | mk a bo =>
    rw [hsp] at h
    cases bo with
    | none =>
      simp only at h
      obtain ⟨x, hx, hxe⟩ := List.mem_map.mp h
      exact Or.inr (Or.inl ⟨x, (mem_splitFirst_fst_of (hsp ▸ hx : x ∈ (splitFirst '%' s).1)).1, hxe⟩)
    | some b =>
      simp only at h
      rcases List.mem_append.mp h with h | h
      · obtain ⟨x, hx, hxe⟩ := List.mem_map.mp h
        exact Or.inr (Or.inl ⟨x, (mem_splitFirst_fst_of (hsp ▸ hx : x ∈ (splitFirst '%' s).1)).1, hxe⟩)
      · rcases List.mem_cons.mp h with rfl | h
        · exact Or.inl rfl
        · exact Or.inr (Or.inr (mem_splitFirst_snd_of (by rw [hsp]) h))

/-! ## Toolkit: decimal rendering -/

theorem mem_natToCharsAux :
    ∀ (fuel n : Nat) (c : Char), c ∈ natToCharsAux fuel n →
      ∃ d, d < 10 ∧ c = Char.ofNat (48 + d) := by
  intro fuel
  induction fuel with
  | zero => intro n c h; simp [natToCharsAux] at h
  | succ fuel ih =>
    intro n c h
    unfold natToCharsAux at h
    by_cases hn : n < 10
    · rw [if_pos hn] at h
      rcases List.mem_singleton.mp h with rfl
      exact ⟨n, hn, rfl⟩
    · rw [if_neg hn] at h
      rcases List.mem_append.mp h with h | h
      · exact ih _ _ h
      · rcases List.mem_singleton.mp h with rfl
        exact ⟨n % 10, Nat.mod_lt _ (by omega), rfl⟩

theorem mem_natToChars_digits {n : Nat} {c : Char} (h : c ∈ natToChars n) :
    c ∈ "0123456789".toList := by
  obtain ⟨d, hd, rfl⟩ := mem_natToCharsAux _ _ _ h
  interval_cases d <;> decide

theorem natToCharsAux_ne_nil (fuel n : Nat) :
    natToCharsAux (fuel + 1) n ≠ [] := by
  unfold natToCharsAux
  split <;> simp

theorem natToChars_ne_nil (n : Nat) : natToChars n ≠ [] :=
  natToCharsAux_ne_nil n n

theorem digitsVal_append_single (xs : List Char) (c : Char) :
    digitsVal (xs ++ [c]) = 10 * digitsVal xs + (c.toNat - 48) := by
  simp [digitsVal, List.foldl_append]
  omega

theorem digitsVal_natToCharsAux :
    ∀ (fuel n : Nat), n < fuel → digitsVal (natToCharsAux fuel n) = n := by
  intro fuel
  induction fuel with
  | zero => omega
  | succ fuel ih =>
    intro n hn
    unfold natToCharsAux
    by_cases h10 : n < 10
    · rw [if_pos h10]
      have : (Char.ofNat (48 + n)).toNat = 48 + n := by
        interval_cases n <;> decide
      simp [digitsVal, this]
    · rw [if_neg h10]
      rw [digitsVal_append_single]
      have hdiv : n / 10 < fuel := by
        have := Nat.div_lt_self (show 0 < n by omega) (show 1 < 10 by omega)
        omega
      rw [ih _ hdiv]
      have hm10 : n % 10 < 10 := Nat.mod_lt _ (by omega)
      have htn : (Char.ofNat (48 + n % 10)).toNat = 48 + n % 10 := by
        generalize n % 10 = m at hm10 ⊢
        interval_cases m <;> decide
      rw [htn]
      omega

theorem digitsVal_natToChars (n : Nat) : digitsVal (natToChars n) = n :=
  digitsVal_natToCharsAux _ _ (by omega)

theorem pyIsdigit_natToChars (n : Nat) : pyIsdigit (natToChars n) = true := by
  unfold pyIsdigit
  rw [Bool.and_eq_true]
  constructor
  · have := natToChars_ne_nil n
    cases h : natToChars n with
    | nil => exact absurd h this
    | cons c r => rfl
  · rw [List.all_eq_true]
    intro c hc
    have hall : ∀ x ∈ "0123456789".toList, pyIsdigitChar x = true := by decide
    exact hall c (mem_natToChars_digits hc)

theorem pyIsascii_natToChars (n : Nat) : pyIsascii (natToChars n) = true := by
  unfold pyIsascii
  rw [List.all_eq_true]
  intro c hc
  have hall : ∀ x ∈ "0123456789".toList, decide (x.toNat < 128) = true := by decide
  exact hall c (mem_natToChars_digits hc)

theorem pyIntOfDigitsAux_ascii :
    ∀ (s : List Char), (∀ c ∈ s, c ∈ "0123456789".toList) → ∀ acc,
      pyIntOfDigitsAux s acc =
        some (s.foldl (fun a c => a * 10 + (c.toNat - 48)) acc) := by
  intro s
  induction s with
  | nil => intro _ acc; rfl
  | cons c rest ih =>
    intro h acc
    have hc : decimalDigitVal c = some (c.toNat - 48) := by
      have hall : ∀ x ∈ "0123456789".toList,
          decimalDigitVal x = some (x.toNat - 48) := by decide
      exact hall c (h c (List.mem_cons_self c rest))
    unfold pyIntOfDigitsAux
    rw [hc]
    simp only [List.foldl_cons]
    exact ih (fun x hx => h x (List.mem_cons_of_mem c hx)) _

theorem pyIntOfDigits_ascii {s : List Char}
    (h : ∀ c ∈ s, c ∈ "0123456789".toList) :
    pyIntOfDigits s = some (digitsVal s) :=
  pyIntOfDigitsAux_ascii s h 0

/-! ## Toolkit: the `%09` junction and unquote identity -/

theorem findSub_percent09_nil (b : List Char) :
    findSub percent09 (percent09 ++ b) = some ([], b) := by
  rw [show percent09 ++ b = '%' :: '0' :: '9' :: b from rfl]
  unfold findSub
  rw [if_pos (by simp [percent09, List.isPrefixOf])]
  rfl

theorem findSub_append_junction {sel b : List Char}
    (h : findSub percent09 sel = none) :
    findSub percent09 (sel ++ percent09 ++ b) = some (sel, b) := by
  induction sel with
  | nil =>
    simpa using findSub_percent09_nil b
  | cons c rest ih =>
    unfold findSub at h
    rcases hpre : percent09.isPrefixOf (c :: rest) with _ | _
    case true => rw [if_pos hpre] at h; simp at h
    case false =>
      rw [if_neg (by simp [hpre])] at h
      have hrest : findSub percent09 rest = none := by
        revert h
        cases hf : findSub percent09 rest with
        | none => intro; rfl
        | some p => cases p; intro h; simp at h
      simp only [List.cons_append, List.append_assoc]
      have hpre2 : percent09.isPrefixOf (c :: (rest ++ (percent09 ++ b))) = false := by
        cases rest with
        | nil => simp [percent09, List.isPrefixOf]
        | cons d rest2 =>
          cases rest2 with
          | nil => simp [percent09, List.isPrefixOf]
          | cons e rest3 =>
            have hthis : percent09.isPrefixOf (c :: d :: e :: rest3) = false := hpre
            simp only [percent09, List.isPrefixOf, String.toList] at hthis ⊢
            simpa using hthis
      have hih : findSub percent09 (rest ++ (percent09 ++ b)) = some (rest, b) := by
        have := ih hrest
        rwa [List.append_assoc] at this
      unfold findSub
      rw [if_neg (by rw [hpre2]; simp), hih]

theorem pyUnquoteAux_no_percent :
    ∀ (fuel : Nat) (s : List Char), '%' ∉ s → pyUnquoteAux fuel s = s := by
  intro fuel
  induction fuel with
  | zero => intro s h; rfl
  | succ fuel ih =>
    intro s h
    cases s with
    | nil => rfl
    | cons c rest =>
      unfold pyUnquoteAux
      rw [if_neg (fun hc => h (by rw [← hc]; exact List.mem_cons_self c rest))]
      rw [ih rest (fun hc => h (List.mem_cons_of_mem c hc))]

theorem pyUnquote_no_percent {s : List Char} (h : '%' ∉ s) : pyUnquote s = s :=
  pyUnquoteAux_no_percent _ _ h

/-! ## What a successful parse guarantees about each component -/

theorem mem_gopherNetloc {url : List Char} {c : Char} (h : c ∈ gopherNetloc url) :
    c ∈ stripUnsafe url ∧ (c != '/' && c != '?' && c != '#') = true := by
  unfold gopherNetloc at h
  exact ⟨List.drop_subset _ _ (List.takeWhile_subset _ h),
    mem_takeWhile_pred (p := fun c => c != '/' && c != '?' && c != '#') h⟩

theorem host_lower_fixed {url : List Char} {u : GopherURL}
    (h : parse_gopher_url url = some u) : hostLower u.host = u.host := by
  obtain ⟨hhost, -⟩ := parse_components h
  rw [hhost]
  unfold gopherHostname
  exact hostLower_idem _

theorem mem_gopherRawPath {url : List Char} {c : Char}
    (h : c ∈ gopherRawPath url) :
    c ∈ stripUnsafe url ∧ c ≠ '?' ∧ c ≠ '#' := by
  unfold gopherRawPath at h
  obtain ⟨h1, hq⟩ := mem_splitFirst_fst_of h
  obtain ⟨h2, hh⟩ := mem_splitFirst_fst_of h1
  unfold gopherAfterNetloc at h2
  exact ⟨List.drop_subset _ _ (List.drop_subset _ _ h2), hq, hh⟩

theorem path_chars_safe {url : List Char} {c : Char} (hc : c ∈ gopherPath url) :
    pathSafeChar c = true := by
  rw [gopherPath] at hc
  cases hraw : gopherRawPath url with
  | nil =>
    rw [hraw] at hc
    simp at hc
    subst hc
    decide
  | cons a as =>
    rw [hraw] at hc
    have hred : (match (a :: as : List Char) with | [] => ['/'] | p => p) = a :: as := rfl
    rw [hred, ← hraw] at hc
    obtain ⟨hstrip, hq, hh⟩ := mem_gopherRawPath hc
    have hclean := (mem_stripUnsafe hstrip).2
    simp [pathSafeChar, hclean, hq, hh]

theorem selector_chars_safe {url : List Char} {u : GopherURL}
    (h : parse_gopher_url url = some u) :
    ∀ c ∈ u.selector, pathSafeChar c = true := by
  obtain ⟨-, -, -, hsel, -⟩ := parse_components h
  intro c hc
  exact path_chars_safe (mem_typeSel (mem_selSearch (hsel ▸ hc)))

theorem type_chars_safe {url : List Char} {u : GopherURL}
    (h : parse_gopher_url url = some u) :
    ∀ c ∈ u.gopher_type, pathSafeChar c = true := by
  obtain ⟨-, -, htype, -⟩ := parse_components h
  intro c hc
  rw [htype] at hc
  rw [gopherTypeSel] at hc
  rcases hp : gopherPath url with _ | ⟨a, _ | ⟨t, rest⟩⟩ <;> rw [hp] at hc
  · simp at hc
    subst hc
    decide
  · simp at hc
    subst hc
    decide
  · simp at hc
    subst hc
    exact path_chars_safe (hp ▸ List.mem_cons_of_mem a (List.mem_cons_self c rest))

theorem search_none_findSub {url : List Char} {u : GopherURL}
    (h : parse_gopher_url url = some u) (hn : u.search = none) :
    findSub percent09 u.selector = none := by
  obtain ⟨-, -, -, hsel, hsearch, -⟩ := parse_components h
  rw [gopherSelSearch] at hsel hsearch
  by_cases hq : gopherQuery url = []
  · cases hf : findSub percent09 (gopherTypeSel url).2 with
    | none =>
      rw [if_neg (by simp [hq]), hf] at hsel
      rw [hsel]
      exact hf
    | some p =>
      cases p with
      | mk a b =>
        rw [if_neg (by simp [hq]), hf] at hsearch
        simp at hsearch
        exact absurd (hn ▸ hsearch) (by simp)
  · rw [if_pos (by simp [hq])] at hsearch
    simp at hsearch
    exact absurd (hn ▸ hsearch) (by simp)

/-! ## Re-parsing a formatted URL: the pipeline stages -/

theorem hostSafeChar_props {c : Char} (h : hostSafeChar c = true) :
    isUnsafeUrlChar c = false ∧ c ≠ '/' ∧ c ≠ '?' ∧ c ≠ '#' ∧ c ≠ '@' ∧
    c ≠ ':' ∧ c ≠ '[' ∧ c ≠ ']' := by
  simp only [hostSafeChar, Bool.and_eq_true, bne_iff_ne, ne_eq,
    Bool.not_eq_true'] at h
  tauto

theorem pathSafeChar_props {c : Char} (h : pathSafeChar c = true) :
    isUnsafeUrlChar c = false ∧ c ≠ '?' ∧ c ≠ '#' := by
  simp only [pathSafeChar, Bool.and_eq_true, bne_iff_ne, ne_eq,
    Bool.not_eq_true'] at h
  tauto

theorem querySafeChar_props {c : Char} (h : querySafeChar c = true) :
    isUnsafeUrlChar c = false ∧ c ≠ '%' ∧ c ≠ '?' ∧ c ≠ '#' := by
  simp only [querySafeChar, Bool.and_eq_true, bne_iff_ne, ne_eq,
    Bool.not_eq_true'] at h
  tauto

/-- Stepping the `urlsplit` stages over a string of the canonical
`gopher://<host><port?></<type><tail>` shape. -/
theorem parse_formatted_stages (H P X : List Char) (t : Char)
    (hHn : ∀ c ∈ H, (c != '/' && c != '?' && c != '#') = true)
    (hPn : ∀ c ∈ P, (c != '/' && c != '?' && c != '#') = true)
    (hHs : ∀ c ∈ H, isUnsafeUrlChar c = false)
    (hPs : ∀ c ∈ P, isUnsafeUrlChar c = false)
    (hXs : ∀ c ∈ X, isUnsafeUrlChar c = false)
    (ht : isUnsafeUrlChar t = false)
    (hXq : '?' ∉ X) (hXh : '#' ∉ X) (htq : t ≠ '?') (hth : t ≠ '#')
    (hHa : '@' ∉ H) (hPa : '@' ∉ P) (hHb : '[' ∉ H) (hPb : '[' ∉ P) :
    "gopher://".toList.isPrefixOf
      ("gopher://".toList ++ (H ++ (P ++ '/' :: t :: X))) = true ∧
    gopherNetloc ("gopher://".toList ++ (H ++ (P ++ '/' :: t :: X))) = H ++ P ∧
    gopherHostname ("gopher://".toList ++ (H ++ (P ++ '/' :: t :: X))) =
      hostLower (splitFirst ':' (H ++ P)).1 ∧
    gopherPortStr ("gopher://".toList ++ (H ++ (P ++ '/' :: t :: X))) =
      (splitFirst ':' (H ++ P)).2 ∧
    gopherQuery ("gopher://".toList ++ (H ++ (P ++ '/' :: t :: X))) = [] ∧
    gopherTypeSel ("gopher://".toList ++ (H ++ (P ++ '/' :: t :: X))) =
      ([t], X) := by
  have hpre : ∀ c ∈ "gopher://".toList, isUnsafeUrlChar c = false := by decide
  have hstrip : stripUnsafe ("gopher://".toList ++ (H ++ (P ++ '/' :: t :: X))) =
      "gopher://".toList ++ (H ++ (P ++ '/' :: t :: X)) := by
    apply stripUnsafe_eq_self
    intro c hc
    rcases List.mem_append.mp hc with hc | hc
    · exact hpre c hc
    rcases List.mem_append.mp hc with hc | hc
    · exact hHs c hc
    rcases List.mem_append.mp hc with hc | hc
    · exact hPs c hc
    rcases List.mem_cons.mp hc with rfl | hc
    · rfl
    rcases List.mem_cons.mp hc with rfl | hc
    · exact ht
    · exact hXs c hc
  have hdrop : (stripUnsafe ("gopher://".toList ++ (H ++ (P ++ '/' :: t :: X)))).drop 9 =
      H ++ (P ++ '/' :: t :: X) := by
    rw [hstrip, show (9 : Nat) = ("gopher://".toList).length from rfl,
      List.drop_left]
  have hnetloc : gopherNetloc ("gopher://".toList ++ (H ++ (P ++ '/' :: t :: X))) =
      H ++ P := by
    unfold gopherNetloc
    rw [hdrop, List.takeWhile_append_of_pos hHn, List.takeWhile_append_of_pos hPn,
      List.takeWhile_cons_of_neg (by decide)]
    simp
  have hafter : gopherAfterNetloc ("gopher://".toList ++ (H ++ (P ++ '/' :: t :: X))) =
      '/' :: t :: X := by
    unfold gopherAfterNetloc
    rw [hdrop, hnetloc, show H ++ (P ++ '/' :: t :: X) = (H ++ P) ++ '/' :: t :: X by
      simp, List.drop_left]
  have hnoHash : '#' ∉ '/' :: t :: X := by
    intro hm
    rcases List.mem_cons.mp hm with he | hm
    · exact absurd he.symm (by decide)
    rcases List.mem_cons.mp hm with he | hm
    · exact hth he.symm
    · exact hXh hm
  have hnoQ : '?' ∉ '/' :: t :: X := by
    intro hm
    rcases List.mem_cons.mp hm with he | hm
    · exact absurd he.symm (by decide)
    rcases List.mem_cons.mp hm with he | hm
    · exact htq he.symm
    · exact hXq hm
  have hrawPath : gopherRawPath ("gopher://".toList ++ (H ++ (P ++ '/' :: t :: X))) =
      '/' :: t :: X := by
    unfold gopherRawPath
    rw [hafter, splitFirst_of_not_mem hnoHash]
    simp only
    rw [splitFirst_of_not_mem hnoQ]
  have hquery : gopherQuery ("gopher://".toList ++ (H ++ (P ++ '/' :: t :: X))) = [] := by
    unfold gopherQuery
    rw [hafter, splitFirst_of_not_mem hnoHash]
    simp only
    rw [splitFirst_of_not_mem hnoQ]
    rfl
  have hhostinfo : afterLast '@' (H ++ P) = H ++ P := by
    apply afterLast_of_not_mem
    intro hm
    rcases List.mem_append.mp hm with hm | hm
    · exact hHa hm
    · exact hPa hm
  have hnoBrHP : '[' ∉ H ++ P := by
    intro hm
    rcases List.mem_append.mp hm with hm | hm
    · exact hHb hm
    · exact hPb hm
  have hsplitBr : splitFirst '[' (H ++ P) = (H ++ P, none) :=
    splitFirst_of_not_mem hnoBrHP
  refine ⟨List.isPrefixOf_iff_prefix.mpr (List.prefix_append _ _), hnetloc, ?_, ?_, hquery, ?_⟩
  · unfold gopherHostname gopherHostRaw
    rw [hnetloc, hhostinfo, hsplitBr]
  · unfold gopherPortStr
    rw [hnetloc, hhostinfo, hsplitBr]
  · unfold gopherTypeSel gopherPath
    rw [hrawPath]

theorem parse_eval {url : List Char} {port : Nat}
    (hpre : "gopher://".toList.isPrefixOf url = true)
    (hlb : '[' ∉ gopherNetloc url) (hrb : ']' ∉ gopherNetloc url)
    (hhn : ¬gopherHostname url = [])
    (hpn : gopherPortNum url = some port) :
    parse_gopher_url url = mkGopherURL (gopherHostname url) port
      (gopherTypeSel url).1 (gopherSelSearch url).1 (gopherSelSearch url).2 := by
  have hn1 : ¬((('[' ∈ gopherNetloc url) ∧ ']' ∉ gopherNetloc url) ∨
      ((']' ∈ gopherNetloc url) ∧ '[' ∉ gopherNetloc url)) := by
    rintro (⟨hm, -⟩ | ⟨hm, -⟩)
    · exact hlb hm
    · exact hrb hm
  have hn2 : ¬(('[' ∈ gopherNetloc url) ∧ (']' ∈ gopherNetloc url) ∧
      checkBracketedHost (gopherBracketedHost url) = false) := by
    rintro ⟨hm, -⟩
    exact hlb hm
  unfold parse_gopher_url
  rw [if_pos hpre, if_neg hn1, if_neg hn2, if_neg hhn, hpn]

theorem portNum_of_portStr {url : List Char} {port : Nat}
    (hp1 : 1 ≤ port) (hp2 : port ≤ 65535)
    (h : gopherPortStr url = if port ≠ 70 then some (natToChars port) else none) :
    gopherPortNum url = some port := by
  unfold gopherPortNum
  rw [h]
  by_cases hp : port = 70
  · rw [if_neg (by simp [hp])]
    rw [hp]
  · rw [if_pos hp]
    cases hnc : natToChars port with
    | nil => exact absurd hnc (natToChars_ne_nil port)
    | cons c r =>
      have hdig : pyIsdigit (c :: r) = true := hnc ▸ pyIsdigit_natToChars port
      have hasc : pyIsascii (c :: r) = true := hnc ▸ pyIsascii_natToChars port
      have hmem : ∀ x ∈ c :: r, x ∈ "0123456789".toList := by
        intro x hx
        exact mem_natToChars_digits (hnc ▸ hx)
      have hval : pyIntOfDigits (c :: r) = some port := by
        rw [pyIntOfDigits_ascii hmem,
          show digitsVal (c :: r) = port from hnc ▸ digitsVal_natToChars port]
      simp only
      rw [if_pos (by rw [hdig, hasc]; rfl), hval]
      simp only
      rw [if_pos hp2, if_neg (by omega)]

/-- Formatting well-behaved components and re-parsing recovers them
exactly. -/
theorem format_reparse (H S : List Char) (t : Char) (port : Nat)
    (search : Option (List Char))
    (hH : H ≠ [])
    (hHsafe : ∀ c ∈ H, hostSafeChar c = true)
    (hHlower : hostLower H = H)
    (hp1 : 1 ≤ port) (hp2 : port ≤ 65535)
    (hSsafe : ∀ c ∈ S, pathSafeChar c = true)
    (hSlen : S.length ≤ 255)
    (hT : pathSafeChar t = true)
    (hsearch : match search with
      | none => findSub percent09 S = none
      | some q => t = '7' ∧ q ≠ [] ∧ findSub percent09 S = none ∧
          ∀ c ∈ q, querySafeChar c = true) :
    (format_gopher_url H port [t] S search).bind parse_gopher_url =
      some ⟨H, port, [t], S, search⟩ := by
  -- the sanitiser passes the selector through
  have hsan : sanitize_selector S = some S := by
    unfold sanitize_selector
    rw [if_neg, if_neg (by omega)]
    rintro (hm | hm | hm) <;>
      · have := (pathSafeChar_props (hSsafe _ hm)).1
        simp [isUnsafeUrlChar] at this
  -- host character facts
  have hHn : ∀ c ∈ H, (c != '/' && c != '?' && c != '#') = true := by
    intro c hc
    obtain ⟨-, h1, h2, h3, -⟩ := hostSafeChar_props (hHsafe c hc)
    simp [h1, h2, h3]
  have hHs : ∀ c ∈ H, isUnsafeUrlChar c = false :=
    fun c hc => (hostSafeChar_props (hHsafe c hc)).1
  have hHa : '@' ∉ H :=
    fun hm => (hostSafeChar_props (hHsafe _ hm)).2.2.2.2.1 rfl
  have hHc : ':' ∉ H :=
    fun hm => (hostSafeChar_props (hHsafe _ hm)).2.2.2.2.2.1 rfl
  have hHlb : '[' ∉ H :=
    fun hm => (hostSafeChar_props (hHsafe _ hm)).2.2.2.2.2.2.1 rfl
  have hHrb : ']' ∉ H :=
    fun hm => (hostSafeChar_props (hHsafe _ hm)).2.2.2.2.2.2.2 rfl
  -- port-part character facts
  have hdigits : ∀ c ∈ "0123456789".toList,
      ((c != '/' && c != '?' && c != '#') = true ∧ isUnsafeUrlChar c = false ∧
        c ≠ '@' ∧ c ≠ '[' ∧ c ≠ ']') := by decide
  have hPn : ∀ c ∈ (if port ≠ 70 then ':' :: natToChars port else []),
      (c != '/' && c != '?' && c != '#') = true := by
    intro c hc
    split at hc
    · rcases List.mem_cons.mp hc with rfl | hc
      · decide
      · exact (hdigits c (mem_natToChars_digits hc)).1
    · simp at hc
  have hPs : ∀ c ∈ (if port ≠ 70 then ':' :: natToChars port else []),
      isUnsafeUrlChar c = false := by
    intro c hc
    split at hc
    · rcases List.mem_cons.mp hc with rfl | hc
      · decide
      · exact (hdigits c (mem_natToChars_digits hc)).2.1
    · simp at hc
  have hPa : '@' ∉ (if port ≠ 70 then ':' :: natToChars port else []) := by
    intro hc
    split at hc
    · rcases List.mem_cons.mp hc with he | hc
      · exact absurd he (by decide)
      · exact (hdigits _ (mem_natToChars_digits hc)).2.2.1 rfl
    · simp at hc
  have hPlb : '[' ∉ (if port ≠ 70 then ':' :: natToChars port else []) := by
    intro hc
    split at hc
    · rcases List.mem_cons.mp hc with he | hc
      · exact absurd he (by decide)
      · exact (hdigits _ (mem_natToChars_digits hc)).2.2.2.1 rfl
    · simp at hc
  have hPrb : ']' ∉ (if port ≠ 70 then ':' :: natToChars port else []) := by
    intro hc
    split at hc
    · rcases List.mem_cons.mp hc with he | hc
      · exact absurd he (by decide)
      · exact (hdigits _ (mem_natToChars_digits hc)).2.2.2.2 rfl
    · simp at hc
  have hsplitHP : splitFirst ':' (H ++ (if port ≠ 70 then ':' :: natToChars port else [])) =
      (H, if port ≠ 70 then some (natToChars port) else none) := by
    by_cases hp : port = 70
    · rw [if_neg (by simp [hp]), if_neg (by simp [hp]), List.append_nil]
      exact splitFirst_of_not_mem hHc
    · rw [if_pos hp, if_pos hp]
      exact splitFirst_append_sep hHc
  -- type character facts
  obtain ⟨hts, htq, hth⟩ := pathSafeChar_props hT
  -- selector character facts
  have hXs : ∀ c ∈ S, isUnsafeUrlChar c = false :=
    fun c hc => (pathSafeChar_props (hSsafe c hc)).1
  have hXq : '?' ∉ S := fun hm => (pathSafeChar_props (hSsafe _ hm)).2.1 rfl
  have hXh : '#' ∉ S := fun hm => (pathSafeChar_props (hSsafe _ hm)).2.2 rfl
  cases search with
  | none =>
    obtain ⟨hpre, hnet, hhost, hport, hquery, htypesel⟩ :=
      parse_formatted_stages H (if port ≠ 70 then ':' :: natToChars port else [])
        S t hHn hPn hHs hPs hXs hts hXq hXh htq hth hHa hPa hHlb hPlb
    have hlb : '[' ∉ gopherNetloc ("gopher://".toList ++
        (H ++ ((if port ≠ 70 then ':' :: natToChars port else []) ++ '/' :: t :: S))) := by
      rw [hnet]
      intro hm
      rcases List.mem_append.mp hm with hm | hm
      · exact hHlb hm
      · exact hPlb hm
    have hrb : ']' ∉ gopherNetloc ("gopher://".toList ++
        (H ++ ((if port ≠ 70 then ':' :: natToChars port else []) ++ '/' :: t :: S))) := by
      rw [hnet]
      intro hm
      rcases List.mem_append.mp hm with hm | hm
      · exact hHrb hm
      · exact hPrb hm
    have hhostname : gopherHostname ("gopher://".toList ++
        (H ++ ((if port ≠ 70 then ':' :: natToChars port else []) ++ '/' :: t :: S))) = H := by
      rw [hhost, hsplitHP]
      exact hHlower
    have hportnum : gopherPortNum ("gopher://".toList ++
        (H ++ ((if port ≠ 70 then ':' :: natToChars port else []) ++ '/' :: t :: S))) =
        some port := by
      apply portNum_of_portStr hp1 hp2
      rw [hport, hsplitHP]
    have hselsearch : gopherSelSearch ("gopher://".toList ++
        (H ++ ((if port ≠ 70 then ':' :: natToChars port else []) ++ '/' :: t :: S))) =
        (S, none) := by
      rw [gopherSelSearch, if_neg (by rw [hquery]; simp), htypesel]
      simp only
      rw [hsearch]
    unfold format_gopher_url
    rw [hsan]
    simp only [Option.some_bind]
    have hshape : "gopher://".toList ++ H ++
        (if port ≠ 70 then ':' :: natToChars port else []) ++ '/' :: [t] ++ S ++
        (match (none : Option (List Char)) with
         | some q => if ¬q.isEmpty ∧ [t] = "7".toList then "%09".toList ++ q else []
         | none => []) =
        "gopher://".toList ++
          (H ++ ((if port ≠ 70 then ':' :: natToChars port else []) ++ '/' :: t :: S)) := by
      simp
    rw [hshape, parse_eval hpre hlb hrb (by rw [hhostname]; exact hH) hportnum,
      hhostname, htypesel, hselsearch]
    show mkGopherURL H port [t] S none =
      some ⟨H, port, [t], S, none⟩
    unfold mkGopherURL
    rw [if_pos (⟨hp1, hp2, rfl⟩ :
      1 ≤ port ∧ port ≤ 65535 ∧ ([t] : List Char).length = 1)]
  | some q =>
    obtain ⟨ht7, hqne, hSfind, hq⟩ := hsearch
    subst ht7
    have hqs : ∀ c ∈ q, isUnsafeUrlChar c = false :=
      fun c hc => (querySafeChar_props (hq c hc)).1
    have hqp : '%' ∉ q := fun hm => (querySafeChar_props (hq _ hm)).2.1 rfl
    have hqq : '?' ∉ q := fun hm => (querySafeChar_props (hq _ hm)).2.2.1 rfl
    have hqh : '#' ∉ q := fun hm => (querySafeChar_props (hq _ hm)).2.2.2 rfl
    have hXs2 : ∀ c ∈ S ++ (percent09 ++ q), isUnsafeUrlChar c = false := by
      intro c hc
      rcases List.mem_append.mp hc with hc | hc
      · exact hXs c hc
      rcases List.mem_append.mp hc with hc | hc
      · have hp09 : ∀ x ∈ percent09, isUnsafeUrlChar x = false := by decide
        exact hp09 c hc
      · exact hqs c hc
    have hXq2 : '?' ∉ S ++ (percent09 ++ q) := by
      intro hc
      rcases List.mem_append.mp hc with hc | hc
      · exact hXq hc
      rcases List.mem_append.mp hc with hc | hc
      · exact absurd hc (by decide)
      · exact hqq hc
    have hXh2 : '#' ∉ S ++ (percent09 ++ q) := by
      intro hc
      rcases List.mem_append.mp hc with hc | hc
      · exact hXh hc
      rcases List.mem_append.mp hc with hc | hc
      · exact absurd hc (by decide)
      · exact hqh hc
    obtain ⟨hpre, hnet, hhost, hport, hquery, htypesel⟩ :=
      parse_formatted_stages H (if port ≠ 70 then ':' :: natToChars port else [])
        (S ++ (percent09 ++ q)) '7' hHn hPn hHs hPs hXs2 (by decide) hXq2 hXh2
        (by decide) (by decide) hHa hPa hHlb hPlb
    have hlb : '[' ∉ gopherNetloc ("gopher://".toList ++
        (H ++ ((if port ≠ 70 then ':' :: natToChars port else []) ++
          '/' :: '7' :: (S ++ (percent09 ++ q))))) := by
      rw [hnet]
      intro hm
      rcases List.mem_append.mp hm with hm | hm
      · exact hHlb hm
      · exact hPlb hm
    have hrb : ']' ∉ gopherNetloc ("gopher://".toList ++
        (H ++ ((if port ≠ 70 then ':' :: natToChars port else []) ++
          '/' :: '7' :: (S ++ (percent09 ++ q))))) := by
      rw [hnet]
      intro hm
      rcases List.mem_append.mp hm with hm | hm
      · exact hHrb hm
      · exact hPrb hm
    have hhostname : gopherHostname ("gopher://".toList ++
        (H ++ ((if port ≠ 70 then ':' :: natToChars port else []) ++
          '/' :: '7' :: (S ++ (percent09 ++ q))))) = H := by
      rw [hhost, hsplitHP]
      exact hHlower
    have hportnum : gopherPortNum ("gopher://".toList ++
        (H ++ ((if port ≠ 70 then ':' :: natToChars port else []) ++
          '/' :: '7' :: (S ++ (percent09 ++ q))))) = some port := by
      apply portNum_of_portStr hp1 hp2
      rw [hport, hsplitHP]
    have hjunction : findSub percent09 (S ++ (percent09 ++ q)) = some (S, q) := by
      have := findSub_append_junction (b := q) hSfind
      rwa [List.append_assoc] at this
    have hselsearch : gopherSelSearch ("gopher://".toList ++
        (H ++ ((if port ≠ 70 then ':' :: natToChars port else []) ++
          '/' :: '7' :: (S ++ (percent09 ++ q))))) = (S, some q) := by
      rw [gopherSelSearch, if_neg (by rw [hquery]; simp), htypesel]
      simp only
      rw [hjunction]
      simp only
      rw [pyUnquote_no_percent hqp]
    unfold format_gopher_url
    rw [hsan]
    simp only [Option.some_bind]
    have hshape : "gopher://".toList ++ H ++
        (if port ≠ 70 then ':' :: natToChars port else []) ++ '/' :: ['7'] ++ S ++
        (match (some q : Option (List Char)) with
         | some q => if ¬q.isEmpty ∧ ['7'] = "7".toList then "%09".toList ++ q else []
         | none => []) =
        "gopher://".toList ++
          (H ++ ((if port ≠ 70 then ':' :: natToChars port else []) ++
            '/' :: '7' :: (S ++ (percent09 ++ q)))) := by
      have hcond : (¬q.isEmpty = true ∧ (['7'] : List Char) = "7".toList) :=
        ⟨by simpa using hqne, rfl⟩
      simp only
      rw [if_pos hcond]
      simp [percent09]
    rw [hshape, parse_eval hpre hlb hrb (by rw [hhostname]; exact hH) hportnum,
      hhostname, htypesel, hselsearch]
    show mkGopherURL H port ['7'] S (some q) =
      some ⟨H, port, ['7'], S, some q⟩
    unfold mkGopherURL
    rw [if_pos (⟨hp1, hp2, rfl⟩ :
      1 ≤ port ∧ port ≤ 65535 ∧ (['7'] : List Char).length = 1)]

/-! ## C1: the Gopher URL round-trip law -/

/-- C1 counterexample: `gopher://h/0/a?b` parses with `search = "b"`, but
formatting drops the search (the type is not `7`), so re-parsing yields
`search = none` — the components are not identical. -/
theorem gopher_roundtrip_counterexample :
    parse_gopher_url c1url = some c1rec ∧
    format_gopher_url c1rec.host c1rec.port c1rec.gopher_type c1rec.selector
      c1rec.search = some c1fmt ∧
    parse_gopher_url c1fmt = some c1rec2 ∧
    c1rec2.search ≠ c1rec.search := by
  refine ⟨by decide, by decide, by decide, by decide⟩

/-- C1 amended: the round-trip law holds for every accepted URL whose
parsed components satisfy `roundtripSafe`: the host's characters survive
re-serialisation (no `:`, `[`, `]`, `@`, `/`, `?`, `#` or TAB/CR/LF — a
bracketed IPv6 host such as `::1` is formatted without its brackets and
the result does not re-parse), the selector is at most 255 characters
(otherwise `format_gopher_url` raises), and the search, when present, is
the kind the formatter can re-serialise — attached to type `7`,
non-empty, free of `%`, `?`, `#` and TAB/CR/LF, with no `%09` already
inside the selector.  Formatting such components and re-parsing recovers
the `GopherURL` exactly. -/
theorem gopher_roundtrip (url : List Char) (u : GopherURL)
    (h : parse_gopher_url url = some u) (hsafe : roundtripSafe u) :
    (format_gopher_url u.host u.port u.gopher_type u.selector u.search).bind
      parse_gopher_url = some u := by
  obtain ⟨hhsafe, hlen, hs⟩ := hsafe
  have hfix := host_lower_fixed h
  have hssafe := selector_chars_safe h
  have htsafe := type_chars_safe h
  obtain ⟨hhost, -, -, -, -, hp1, hp2, htl, -, hne, -⟩ := parse_components h
  have hsnone : u.search = none → findSub percent09 u.selector = none :=
    fun hn => search_none_findSub h hn
  obtain ⟨H, port, gt, S, srch⟩ := u
  simp only at hhost hp1 hp2 htl hlen hs hfix hhsafe hssafe htsafe hsnone ⊢
  obtain ⟨t, rfl⟩ : ∃ t, gt = [t] := by
    rcases gt with _ | ⟨t, rest⟩
    · simp at htl
    · have : rest = [] := by simpa using htl
      exact ⟨t, by rw [this]⟩
  have hHne : H ≠ [] := by rw [hhost]; exact hne
  have htsafe2 : pathSafeChar t = true :=
    htsafe t (List.mem_singleton.mpr rfl)
  cases srch with
  | none =>
    exact format_reparse H S t port none hHne hhsafe hfix hp1 hp2 hssafe hlen
      htsafe2 (hsnone rfl)
  | some q =>
    obtain ⟨h7, hqne, hfind, hq⟩ := hs
    have ht7 : t = '7' := by
      injection h7
    exact format_reparse H S t port (some q) hHne hhsafe hfix hp1 hp2 hssafe
      hlen htsafe2 ⟨ht7, hqne, hfind, hq⟩

/-- C1 witness: a type-7 search URL that satisfies `roundtripSafe` and
round-trips exactly. -/
theorem gopher_roundtrip_witness :
    parse_gopher_url c1wurl = some c1wrec ∧
    roundtripSafe c1wrec ∧
    (format_gopher_url c1wrec.host c1wrec.port c1wrec.gopher_type
      c1wrec.selector c1wrec.search).bind parse_gopher_url = some c1wrec :=
  ⟨by decide, ⟨by decide, by decide, by decide, by decide, by decide, by decide⟩,
   gopher_roundtrip c1wurl c1wrec (by decide)
     ⟨by decide, by decide, by decide, by decide, by decide, by decide⟩⟩

end GopherMcp
